import Mathlib

/-!
Verification of the record-construction pipeline of `scripts/add-restaurant.mjs`
(repository fenwickislandsocial).  Strings are modelled as `List Char`
(Unicode scalar values), JSON values as an inductive `Json`, and the
interactive `main` routine as a pure function from the operator's answers,
the file-system contents and the current time to either a fatal error or
the committed result.
-/

/-! ### Character helpers -/

/-- Character class `[a-z0-9]` used by the slugifier (line 20 of the source). -/
def isSlugChar (c : Char) : Bool :=
  (97 ≤ c.toNat && c.toNat ≤ 122) || (48 ≤ c.toNat && c.toNat ≤ 57)

/-- Characters allowed in a finished slug: `[a-z0-9]` plus the hyphen. -/
def slugAlphabet (c : Char) : Bool :=
  isSlugChar c || c.toNat == 45

/-- Whitespace removed by JavaScript `String.prototype.trim`
(space, tab, LF, VT, FF, CR, NBSP; the common cases). -/
def jsWS (c : Char) : Bool :=
  c.toNat == 32 || c.toNat == 9 || c.toNat == 10 || c.toNat == 11 ||
  c.toNat == 12 || c.toNat == 13 || c.toNat == 160

/-- Model of `String.prototype.trim` (used at source lines 15, 96, 112, 118, ...). -/
def jsTrim (s : List Char) : List Char :=
  ((s.dropWhile jsWS).reverse.dropWhile jsWS).reverse

/-- Model of `String.prototype.toLowerCase` on the ASCII and Latin-1 ranges
(identity elsewhere; the repository's data is in this range).  Source line 16. -/
def jsToLowerChar (c : Char) : Char :=
  if 65 ≤ c.toNat && c.toNat ≤ 90 then Char.ofNat (c.toNat + 32)
  else if 192 ≤ c.toNat && c.toNat ≤ 222 && !(c.toNat == 215) then Char.ofNat (c.toNat + 32)
  else c

def jsToLower (s : List Char) : List Char := s.map jsToLowerChar

/-- Decomposition table for `String.prototype.normalize` with form `NFKD`,
restricted to the precomposed Latin-1 lowercase letters (code point,
decomposition).  Source line 17. -/
def nfkdTable : List (Nat × List Nat) :=
  [(0xe0, [0x61, 0x300]), (0xe1, [0x61, 0x301]), (0xe2, [0x61, 0x302]),
   (0xe3, [0x61, 0x303]), (0xe4, [0x61, 0x308]), (0xe5, [0x61, 0x30a]),
   (0xe7, [0x63, 0x327]),
   (0xe8, [0x65, 0x300]), (0xe9, [0x65, 0x301]), (0xea, [0x65, 0x302]),
   (0xeb, [0x65, 0x308]),
   (0xec, [0x69, 0x300]), (0xed, [0x69, 0x301]), (0xee, [0x69, 0x302]),
   (0xef, [0x69, 0x308]),
   (0xf1, [0x6e, 0x303]),
   (0xf2, [0x6f, 0x300]), (0xf3, [0x6f, 0x301]), (0xf4, [0x6f, 0x302]),
   (0xf5, [0x6f, 0x303]), (0xf6, [0x6f, 0x308]),
   (0xf9, [0x75, 0x300]), (0xfa, [0x75, 0x301]), (0xfb, [0x75, 0x302]),
   (0xfc, [0x75, 0x308]),
   (0xfd, [0x79, 0x301]), (0xff, [0x79, 0x308])]

/-- Model of Unicode NFKD normalization: identity on ASCII, table-driven for
the Latin-1 letters above, identity on anything else. -/
def nfkdChar (c : Char) : List Char :=
  if c.toNat < 128 then [c]
  else
    match nfkdTable.find? (fun p => p.1 == c.toNat) with
    | some p => p.2.map Char.ofNat
    | none => [c]

def nfkd (s : List Char) : List Char := s.flatMap nfkdChar

/-- Source line 18 (the first replace): strip ASCII apostrophes (U+0027)
and right single quotation marks (U+2019). -/
def stripApos (s : List Char) : List Char :=
  s.filter (fun c => !(c.toNat == 39 || c.toNat == 0x2019))

/-- Source line 19: `.replace(/&/g, " and ")`. -/
def replaceAmp (s : List Char) : List Char :=
  s.flatMap (fun c => if c.toNat == 38 then [' ', 'a', 'n', 'd', ' '] else [c])

/-- Helper for `.replace(/[^a-z0-9]+/g, "-")`: the flag records whether we are
inside a run of non-`[a-z0-9]` characters (whose first character already
produced the hyphen). -/
def collapseNonAlnumAux : Bool → List Char → List Char
  | _, [] => []
  | inRun, c :: cs =>
    if isSlugChar c then c :: collapseNonAlnumAux false cs
    else if inRun then collapseNonAlnumAux true cs
    else '-' :: collapseNonAlnumAux true cs

/-- Source line 20: each maximal run of non-`[a-z0-9]` characters becomes one hyphen. -/
def collapseNonAlnum (s : List Char) : List Char := collapseNonAlnumAux false s

/-- Source line 21: `.replace(/^-+|-+$/g, "")` — drop leading and trailing hyphen runs. -/
def trimHyphens (s : List Char) : List Char :=
  ((s.dropWhile (fun c => c.toNat == 45)).reverse.dropWhile (fun c => c.toNat == 45)).reverse

/-- Helper for the final replace (hyphen runs become one hyphen): the flag
records whether the previous kept character was a hyphen of the current run. -/
def collapseHyphensAux : Bool → List Char → List Char
  | _, [] => []
  | prevHyph, c :: cs =>
    if c.toNat == 45 then
      if prevHyph then collapseHyphensAux true cs
      else '-' :: collapseHyphensAux true cs
    else c :: collapseHyphensAux false cs

/-- Source line 22: collapse hyphen runs. -/
def collapseHyphens (s : List Char) : List Char := collapseHyphensAux false s

/-- `slugify` from source lines 13-23: trim, lower-case, NFKD, strip
apostrophes, `&` → `" and "`, collapse non-alphanumeric runs to hyphens,
trim outer hyphens, collapse hyphen runs. -/
def slugify (s : List Char) : List Char :=
  collapseHyphens (trimHyphens (collapseNonAlnum (replaceAmp (stripApos (nfkd (jsToLower (jsTrim s)))))))

/-! ### Slug well-formedness predicates -/

/-- No two consecutive hyphens. -/
def noDoubleHyphen : List Char → Bool
  | [] => true
  | [_] => true
  | a :: b :: rest => !(a.toNat == 45 && b.toNat == 45) && noDoubleHyphen (b :: rest)

/-- The first character (if any) is a hyphen. -/
def headHyphen (l : List Char) : Bool :=
  match l.head? with
  | some c => c.toNat == 45
  | none => false

/-- The last character (if any) is a hyphen. -/
def lastHyphen (l : List Char) : Bool :=
  match l.getLast? with
  | some c => c.toNat == 45
  | none => false

/-- A clean slug: only `[a-z0-9-]`, no outer hyphens, no hyphen runs
(the empty string qualifies). -/
def isCleanSlug (s : List Char) : Bool :=
  s.all slugAlphabet && !headHyphen s && !lastHyphen s && noDoubleHyphen s

/-! ### Other string helpers of the script -/

/-- Split on commas (model of `String.prototype.split(",")`, which yields
`[""]` on the empty string). -/
def splitComma : List Char → List (List Char)
  | [] => [[]]
  | c :: cs =>
    match splitComma cs with
    | g :: gs => if c.toNat == 44 then [] :: g :: gs else (c :: g) :: gs
    | [] => [[c]]

/-- `parseList` from source lines 35-40: split on commas, trim each item,
drop empties. -/
def parseList (s : List Char) : List (List Char) :=
  ((splitComma s).map jsTrim).filter (fun g => !g.isEmpty)

/-- `yesNoToBool` from source lines 73-79. -/
def yesNoToBool (s : List Char) (defaultVal : Bool) : Bool :=
  let v := jsToLower (jsTrim s)
  if v.isEmpty then defaultVal
  else if v = ("y".toList) || v = ("yes".toList) || v = ("true".toList) || v = ("1".toList) then true
  else if v = ("n".toList) || v = ("no".toList) || v = ("false".toList) || v = ("0".toList) then false
  else defaultVal

/-! ### Decimal digits (for `Date.now().toString()` and JSON numbers) -/

def digitChar (d : Nat) : Char := Char.ofNat (48 + d)

/-- Fuel-indexed digit expansion; any `fuel > n` is adequate. -/
def natToDigitsAux : Nat → Nat → List Char
  | 0, _ => []
  | fuel + 1, n =>
    if n < 10 then [digitChar n]
    else natToDigitsAux fuel (n / 10) ++ [digitChar (n % 10)]

/-- Decimal representation of a natural number (model of JS
`Number.prototype.toString` for non-negative integers). -/
def natToDigits (n : Nat) : List Char := natToDigitsAux (n + 1) n

/-- Model of `String.prototype.slice(-5)`: the last five characters
(the whole string when it is shorter). Source line 105. -/
def jsSliceLast5 (l : List Char) : List Char := l.drop (l.length - 5)

/-- Decimal representation of an integer (model of `JSON.stringify` for the
integral numbers this store can contain). -/
def intChars (i : Int) : List Char :=
  if i < 0 then '-' :: natToDigits i.natAbs else natToDigits i.natAbs

/-! ### JSON values

`readJson`/`writeJson` (source lines 25-33) exchange JSON text with
`JSON.parse`/`JSON.stringify`.  JSON numbers are modelled as integers (the
restaurant store stores no numbers at all). -/

inductive Json where
  | null : Json
  | bool : Bool → Json
  | num : Int → Json
  | str : List Char → Json
  | arr : List Json → Json
  | obj : List (List Char × Json) → Json

instance : Inhabited Json := ⟨Json.null⟩

/-- JavaScript truthiness of a JSON value (`filter(Boolean)`). -/
def jsTruthy : Json → Bool
  | Json.null => false
  | Json.bool b => b
  | Json.num n => !(n == 0)
  | Json.str s => !s.isEmpty
  | Json.arr _ => true
  | Json.obj _ => true

/-- Property lookup in an object; with duplicate keys the last one wins
(`JSON.parse` semantics). -/
def lookupLast : List (List Char × Json) → List Char → Option Json
  | [], _ => none
  | (k, v) :: rest, key =>
    match lookupLast rest key with
    | some r => some r
    | none => if k = key then some v else none

/-- Model of `x?.field`: `none` plays the role of `undefined`
(non-objects have no own properties). -/
def jsGet : Json → List Char → Option Json
  | Json.obj fields, key => lookupLast fields key
  | _, _ => none

/-- First operand of a `??` chain that is neither `undefined` nor `null`;
final fallback `null`. -/
def firstNonNullish : List (Option Json) → Json
  | [] => Json.null
  | x :: rest =>
    match x with
    | some Json.null => firstNonNullish rest
    | some v => v
    | none => firstNonNullish rest

/-- `a?.key ?? a?.id ?? a?.slug ?? null` (source line 46). -/
def areaKeyOf (a : Json) : Json :=
  firstNonNullish [jsGet a ("key".toList), jsGet a ("id".toList), jsGet a ("slug".toList)]

/-- `extractAreaKeys` from source lines 42-48. -/
def extractAreaKeys (j : Json) : List Json :=
  match j with
  | Json.arr l => (l.map areaKeyOf).filter jsTruthy
  | _ => []

/-- `c?.name ?? c?.key ?? c?.id ?? null` (source line 54). -/
def cuisineNameOf (c : Json) : Json :=
  firstNonNullish [jsGet c ("name".toList), jsGet c ("key".toList), jsGet c ("id".toList)]

/-- `extractCuisineNames` from source lines 50-57: a non-empty array whose
first element is a string is returned as-is. -/
def extractCuisineNames (j : Json) : List Json :=
  match j with
  | Json.arr l =>
    match l with
    | Json.str _ :: _ => l
    | _ => (l.map cuisineNameOf).filter jsTruthy
  | _ => []

/-- Does the store contain `s` among the truthy `slug` fields of its elements?
Models `new Set(restaurants.map(r => r?.slug).filter(Boolean)).has(slug)`
(source lines 103-104): the set holds raw values, and `has` compares a string
against them with SameValueZero. -/
def hasSlug (elems : List Json) (s : List Char) : Bool :=
  elems.any (fun r =>
    match jsGet r ("slug".toList) with
    | some v => jsTruthy v && (match v with | Json.str t => t = s | _ => false)
    | none => false)

/-! ### JSON serialization: model of `JSON.stringify(data, null, 2)` -/

/-- Lowercase hexadecimal digit. -/
def hexDigitChar (n : Nat) : Char :=
  if n < 10 then Char.ofNat (48 + n) else Char.ofNat (87 + n)

/-- String-character escaping performed by `JSON.stringify`. -/
def escapeChar (c : Char) : List Char :=
  if c.toNat == 34 then ['\\', '"']
  else if c.toNat == 92 then ['\\', '\\']
  else if c.toNat == 8 then ['\\', 'b']
  else if c.toNat == 9 then ['\\', 't']
  else if c.toNat == 10 then ['\\', 'n']
  else if c.toNat == 12 then ['\\', 'f']
  else if c.toNat == 13 then ['\\', 'r']
  else if c.toNat < 32 then
    ['\\', 'u', '0', '0', hexDigitChar (c.toNat / 16), hexDigitChar (c.toNat % 16)]
  else [c]

/-- A double-quoted, escaped JSON string literal. -/
def printStr (s : List Char) : List Char :=
  '"' :: ((s.flatMap escapeChar) ++ ['"'])

/-- Two spaces of indentation per level (the `2` in `JSON.stringify(data, null, 2)`). -/
def indentChars (ind : Nat) : List Char := List.replicate (2 * ind) ' '

mutual

/-- Pretty-printing of a JSON value at indentation level `ind`, exactly as
`JSON.stringify(v, null, 2)` lays it out. -/
def printValue : Nat → Json → List Char
  | _, Json.null => ['n', 'u', 'l', 'l']
  | _, Json.bool true => ['t', 'r', 'u', 'e']
  | _, Json.bool false => ['f', 'a', 'l', 's', 'e']
  | _, Json.num n => intChars n
  | _, Json.str s => printStr s
  | _, Json.arr [] => ['[', ']']
  | ind, Json.arr (x :: xs) =>
    '[' :: '\n' :: (printElems (ind + 1) (x :: xs) ++ '\n' :: (indentChars ind ++ [']']))
  | _, Json.obj [] => ['{', '}']
  | ind, Json.obj (f :: fs) =>
    '{' :: '\n' :: (printFields (ind + 1) (f :: fs) ++ '\n' :: (indentChars ind ++ ['}']))

/-- The element lines of a non-empty array, separated by `",\n"`. -/
def printElems : Nat → List Json → List Char
  | _, [] => []
  | ind, [x] => indentChars ind ++ printValue ind x
  | ind, x :: y :: ys =>
    indentChars ind ++ printValue ind x ++ ',' :: '\n' :: printElems ind (y :: ys)

/-- The member lines of a non-empty object, separated by `",\n"`. -/
def printFields : Nat → List (List Char × Json) → List Char
  | _, [] => []
  | ind, [(k, v)] => indentChars ind ++ (printStr k ++ ':' :: ' ' :: printValue ind v)
  | ind, (k, v) :: f :: fs =>
    indentChars ind ++ (printStr k ++ ':' :: ' ' :: printValue ind v) ++
      ',' :: '\n' :: printFields ind (f :: fs)

end

/-- `writeJson` body, source lines 30-33: `JSON.stringify(data, null, 2) + "\n"`. -/
def writeJsonTxt (v : Json) : List Char := printValue 0 v ++ ['\n']

/-! ### JSON parsing: model of `JSON.parse`

A fuel-indexed recursive-descent parser.  It covers the grammar the
repository's data uses (numbers are integral, `\uXXXX` escapes denote scalar
values); `jsonParse` runs it with fuel `length + 1`, which suffices for every
input the printer produces. -/

/-- JSON insignificant whitespace. -/
def isJsonWs (c : Char) : Bool :=
  c.toNat == 32 || c.toNat == 9 || c.toNat == 10 || c.toNat == 13

def skipWs (s : List Char) : List Char := s.dropWhile isJsonWs

/-- The numeric value of a hexadecimal digit. -/
def hexVal (c : Char) : Option Nat :=
  if 48 ≤ c.toNat && c.toNat ≤ 57 then some (c.toNat - 48)
  else if 97 ≤ c.toNat && c.toNat ≤ 102 then some (c.toNat - 87)
  else if 65 ≤ c.toNat && c.toNat ≤ 70 then some (c.toNat - 55)
  else none

/-- The character denoted by a single-character escape. -/
def unescapeChar (e : Char) : Option Char :=
  if e.toNat == 34 then some '"'
  else if e.toNat == 92 then some '\\'
  else if e.toNat == 47 then some '/'
  else if e.toNat == 98 then some (Char.ofNat 8)
  else if e.toNat == 102 then some (Char.ofNat 12)
  else if e.toNat == 110 then some '\n'
  else if e.toNat == 114 then some (Char.ofNat 13)
  else if e.toNat == 116 then some '\t'
  else none

mutual

/-- The body of a JSON string literal after the opening quote: returns the
decoded characters and the remainder after the closing quote.  Raw control
characters are rejected, as in `JSON.parse`. -/
def parseStringBody : List Char → Option (List Char × List Char)
  | [] => none
  | c :: cs =>
    if c.toNat == 34 then some ([], cs)
    else if c.toNat == 92 then parseStringEsc cs
    else if c.toNat < 32 then none
    else (parseStringBody cs).map (fun p => (c :: p.1, p.2))

/-- The remainder of a string literal after a backslash. -/
def parseStringEsc : List Char → Option (List Char × List Char)
  | [] => none
  | e :: cs =>
    if e.toNat == 117 then
      match cs with
      | h1 :: h2 :: h3 :: h4 :: cs2 =>
        match hexVal h1, hexVal h2, hexVal h3, hexVal h4 with
        | some a, some b, some c, some d =>
          (parseStringBody cs2).map
            (fun p => (Char.ofNat (((a * 16 + b) * 16 + c) * 16 + d) :: p.1, p.2))
        | _, _, _, _ => none
      | _ => none
    else
      match unescapeChar e with
      | some u => (parseStringBody cs).map (fun p => (u :: p.1, p.2))
      | none => none

end

/-- The numeric value of a run of decimal digits. -/
def digitsVal (ds : List Char) : Nat :=
  ds.foldl (fun a c => a * 10 + (c.toNat - 48)) 0

/-- A JSON natural-number literal: a non-empty digit run without a redundant
leading zero. -/
def parseNatNum (s : List Char) : Option (Nat × List Char) :=
  let ds := s.takeWhile Char.isDigit
  if ds.isEmpty then none
  else if 1 < ds.length && (match ds.head? with | some c => c.toNat == 48 | none => false) then none
  else some (digitsVal ds, s.dropWhile Char.isDigit)

mutual

/-- Recursive-descent JSON value parser with fuel; leading whitespace is
skipped, keywords/strings/integers/arrays/objects are recognized as in
`JSON.parse`. -/
def parseValue : Nat → List Char → Option (Json × List Char)
  | 0, _ => none
  | fuel + 1, s =>
    match skipWs s with
    | [] => none
    | c :: cs =>
      if c.toNat == 110 then
        if cs.take 3 = ['u', 'l', 'l'] then some (Json.null, cs.drop 3) else none
      else if c.toNat == 116 then
        if cs.take 3 = ['r', 'u', 'e'] then some (Json.bool true, cs.drop 3) else none
      else if c.toNat == 102 then
        if cs.take 4 = ['a', 'l', 's', 'e'] then some (Json.bool false, cs.drop 4) else none
      else if c.toNat == 34 then
        (parseStringBody cs).map (fun p => (Json.str p.1, p.2))
      else if c.toNat == 91 then
        match skipWs cs with
        | c2 :: cs2 =>
          if c2.toNat == 93 then some (Json.arr [], cs2)
          else (parseElems fuel cs).map (fun p => (Json.arr p.1, p.2))
        | [] => none
      else if c.toNat == 123 then
        match skipWs cs with
        | c2 :: cs2 =>
          if c2.toNat == 125 then some (Json.obj [], cs2)
          else (parseFields fuel cs).map (fun p => (Json.obj p.1, p.2))
        | [] => none
      else if c.toNat == 45 then
        (parseNatNum cs).map (fun p => (Json.num (-(p.1 : Int)), p.2))
      else if c.isDigit then
        (parseNatNum (c :: cs)).map (fun p => (Json.num (p.1 : Int), p.2))
      else none

/-- One or more comma-separated values followed by `]`. -/
def parseElems : Nat → List Char → Option (List Json × List Char)
  | 0, _ => none
  | fuel + 1, s =>
    match parseValue fuel s with
    | some (v, r) =>
      match skipWs r with
      | c :: r2 =>
        if c.toNat == 44 then (parseElems fuel r2).map (fun p => (v :: p.1, p.2))
        else if c.toNat == 93 then some ([v], r2)
        else none
      | [] => none
    | none => none

/-- One or more comma-separated `"key": value` members followed by `}`. -/
def parseFields : Nat → List Char → Option (List (List Char × Json) × List Char)
  | 0, _ => none
  | fuel + 1, s =>
    match skipWs s with
    | c :: cs =>
      if c.toNat == 34 then
        match parseStringBody cs with
        | some (k, r1) =>
          match skipWs r1 with
          | c2 :: r2 =>
            if c2.toNat == 58 then
              match parseValue fuel r2 with
              | some (v, r3) =>
                match skipWs r3 with
                | c3 :: r4 =>
                  if c3.toNat == 44 then
                    (parseFields fuel r4).map (fun p => ((k, v) :: p.1, p.2))
                  else if c3.toNat == 125 then some ([(k, v)], r4)
                  else none
                | [] => none
              | none => none
            else none
          | [] => none
        | none => none
      else none
    | [] => none

end

/-- `JSON.parse`: parse one value, then require only whitespace to remain.
Fuel `length + 1` is enough for any printable value (proved below). -/
def jsonParse (s : List Char) : Option Json :=
  match parseValue (s.length + 1) s with
  | some (v, rest) => if (skipWs rest).isEmpty then some v else none
  | none => none

/-! ### Fuel adequacy measure for the parser -/

mutual

/-- Fuel sufficient for `parseValue` on the printed form of `v`. -/
def jsonFuel : Json → Nat
  | Json.arr [] => 1
  | Json.arr (x :: xs) => 1 + elemsFuel (x :: xs)
  | Json.obj [] => 1
  | Json.obj (f :: fs) => 1 + fieldsFuel (f :: fs)
  | _ => 1

/-- Fuel sufficient for `parseElems` on the printed element lines. -/
def elemsFuel : List Json → Nat
  | [] => 1
  | [x] => 1 + jsonFuel x
  | x :: y :: ys => 1 + max (jsonFuel x) (elemsFuel (y :: ys))

/-- Fuel sufficient for `parseFields` on the printed member lines. -/
def fieldsFuel : List (List Char × Json) → Nat
  | [] => 1
  | [(_, v)] => 1 + jsonFuel v
  | (_, v) :: f :: fs => 1 + max (jsonFuel v) (fieldsFuel (f :: fs))

end

/-! ### The restaurant record and the embedded `main` (source lines 81-197) -/

/-- The restaurant record assembled at source lines 158-174. -/
structure Record where
  name : List Char
  slug : List Char
  areaKey : List Char
  address : List Char
  price : List Char
  cuisines : List (List Char)
  vibes : List (List Char)
  goodFor : List (List Char)
  shortBlurb : List Char
  longBlurb : List Char
  mustTry : List (List Char)
  website : List Char
  menuUrl : List Char
  photos : List (List Char)
  featured : Bool
deriving Inhabited

/-- The JSON object literal pushed into the store (field order as written at
source lines 158-174). -/
def encodeRecord (r : Record) : Json :=
  Json.obj
    [("name".toList, Json.str r.name),
     ("slug".toList, Json.str r.slug),
     ("areaKey".toList, Json.str r.areaKey),
     ("address".toList, Json.str r.address),
     ("price".toList, Json.str r.price),
     ("cuisines".toList, Json.arr (r.cuisines.map Json.str)),
     ("vibes".toList, Json.arr (r.vibes.map Json.str)),
     ("goodFor".toList, Json.arr (r.goodFor.map Json.str)),
     ("shortBlurb".toList, Json.str r.shortBlurb),
     ("longBlurb".toList, Json.str r.longBlurb),
     ("mustTry".toList, Json.arr (r.mustTry.map Json.str)),
     ("website".toList, Json.str r.website),
     ("menuUrl".toList, Json.str r.menuUrl),
     ("photos".toList, Json.arr (r.photos.map Json.str)),
     ("featured".toList, Json.bool r.featured)]

/-- The three data files the script touches, as optional text contents
(`none` models an absent file). -/
structure FS where
  restaurantsTxt : Option (List Char)
  areasTxt : Option (List Char)
  cuisinesTxt : Option (List Char)

/-- The operator's raw answers to the fourteen prompts, in prompt order. -/
structure Answers where
  nameAns : List Char
  slugAns : List Char
  areaKeyAns : List Char
  addressAns : List Char
  priceAns : List Char
  cuisinesAns : List Char
  vibesAns : List Char
  goodForAns : List Char
  shortBlurbAns : List Char
  longBlurbAns : List Char
  mustTryAns : List Char
  websiteAns : List Char
  menuUrlAns : List Char
  featuredAns : List Char

/-- A successful run: the committed record, the final in-memory store
sequence, and the exact text written to `restaurants.json`. -/
structure MainOk where
  entry : Record
  store : List Json
  storeText : List Char
deriving Inhabited

/-- `readJson` (source lines 25-28): reading an absent file rejects the
promise, and `JSON.parse` throws on malformed text.  The error strings stand
in for the runtime's messages. -/
def readJsonF : Option (List Char) → Except (List Char) Json
  | none => Except.error ("ENOENT: no such file or directory".toList)
  | some t =>
    match jsonParse t with
    | some j => Except.ok j
    | none => Except.error ("Unexpected token in JSON".toList)

/-- Source lines 85-92: read and parse the three data files in order;
`restaurants.json` must parse to an array, the lookup tables are reduced to
suggestion lists.  Any read/parse failure aborts the run. -/
def loadPhase (fs : FS) : Except (List Char) (List Json × List Json × List Json) :=
  match readJsonF fs.restaurantsTxt with
  | Except.error e => Except.error e
  | Except.ok rj =>
    match rj with
    | Json.arr elems =>
      match readJsonF fs.areasTxt with
      | Except.error e => Except.error e
      | Except.ok aj =>
        match readJsonF fs.cuisinesTxt with
        | Except.error e => Except.error e
        | Except.ok cj => Except.ok (elems, extractAreaKeys aj, extractCuisineNames cj)
    | _ => Except.error ("restaurants.json must be a JSON array.".toList)

/-- The candidate slug of source line 99: the normalized explicit answer,
falling back to the normalized name. -/
def candidateSlug (a : Answers) : List Char :=
  if (slugify a.slugAns).isEmpty then slugify (jsTrim a.nameAns) else slugify a.slugAns

/-- The final slug of source lines 102-108: on collision with a truthy slug
already in the store, append a hyphen and the last five digits of the time. -/
def finalSlug (elems : List Json) (a : Answers) (now : Nat) : List Char :=
  if hasSlug elems (candidateSlug a)
  then candidateSlug a ++ '-' :: jsSliceLast5 (natToDigits now)
  else candidateSlug a

/-- The record assembled at source lines 158-174 (fields from the prompts,
slug and photo path from `finalSlug`). -/
def assembleEntry (elems : List Json) (a : Answers) (now : Nat) : Record :=
  { name := jsTrim a.nameAns
    slug := finalSlug elems a now
    areaKey := jsTrim a.areaKeyAns
    address := jsTrim a.addressAns
    price := if (jsTrim a.priceAns).isEmpty then ("$$".toList) else jsTrim a.priceAns
    cuisines := parseList a.cuisinesAns
    vibes := parseList a.vibesAns
    goodFor := parseList a.goodForAns
    shortBlurb := jsTrim a.shortBlurbAns
    longBlurb := jsTrim a.longBlurbAns
    mustTry := parseList a.mustTryAns
    website := jsTrim a.websiteAns
    menuUrl := jsTrim a.menuUrlAns
    photos := [("/images/restaurants/".toList) ++ finalSlug elems a now ++ ("/1.jpg".toList)]
    featured := yesNoToBool a.featuredAns false }

/-- Source lines 176-177: push the entry and serialize the whole sequence. -/
def commitResult (elems : List Json) (a : Answers) (now : Nat) : MainOk :=
  { entry := assembleEntry elems a now
    store := elems ++ [encodeRecord (assembleEntry elems a now)]
    storeText := writeJsonTxt (Json.arr (elems ++ [encodeRecord (assembleEntry elems a now)])) }

/-- Source lines 94-177: the prompting, validation, assembly and commit
sequence, as a pure function of the parsed store, the answers and the
current time (`Date.now()`), with the four fatal checks in prompt order.
Console output and the placeholder-photo provisioning (which never fails and
does not touch the store) are not modelled. -/
def interactPhase (elems : List Json) (a : Answers) (now : Nat) : Except (List Char) MainOk :=
  if (jsTrim a.nameAns).isEmpty then Except.error ("Name is required.".toList)
  else if (candidateSlug a).isEmpty then Except.error ("Could not generate slug.".toList)
  else if (jsTrim a.areaKeyAns).isEmpty then Except.error ("areaKey is required.".toList)
  else if (parseList a.cuisinesAns).isEmpty then
    Except.error ("At least one cuisine is required.".toList)
  else Except.ok (commitResult elems a now)

/-- The whole `main` (source lines 81-192): load, interact, commit. -/
def runMain (fs : FS) (a : Answers) (now : Nat) : Except (List Char) MainOk :=
  match loadPhase fs with
  | Except.error e => Except.error e
  | Except.ok (elems, _, _) => interactPhase elems a now

/-- The contents of `restaurants.json` after the run: the single write at
source line 177 happens only on the success path. -/
def storeAfter (fs : FS) (a : Answers) (now : Nat) : Option (List Char) :=
  match runMain fs a now with
  | Except.ok r => some r.storeText
  | Except.error _ => fs.restaurantsTxt

/-- Process exit status (source lines 194-197: `main().catch(... exit(1))`). -/
def exitCode (fs : FS) (a : Answers) (now : Nat) : Nat :=
  match runMain fs a now with
  | Except.ok _ => 0
  | Except.error _ => 1

/-- The committed record's slug, when the run succeeds. -/
def assembledSlug (fs : FS) (a : Answers) (now : Nat) : Option (List Char) :=
  match runMain fs a now with
  | Except.ok r => some r.entry.slug
  | Except.error _ => none

/-- The committed record's price, when the run succeeds. -/
def committedPrice (fs : FS) (a : Answers) (now : Nat) : Option (List Char) :=
  match runMain fs a now with
  | Except.ok r => some r.entry.price
  | Except.error _ => none

/-- Did the run succeed? -/
def runSucceeds (fs : FS) (a : Answers) (now : Nat) : Bool :=
  match runMain fs a now with
  | Except.ok _ => true
  | Except.error _ => false

/-! ### Concrete stores, answers and runs used as test vectors -/

/-- A minimal pre-existing store element (the script inspects only `r?.slug`). -/
def recObj (slug : List Char) : Json := Json.obj [("slug".toList, Json.str slug)]

/-- A full, valid answer sheet (no explicit slug, price left empty). -/
def ansGrotto : Answers :=
  { nameAns := "Grotto".toList
    slugAns := []
    areaKeyAns := "fenwick-island".toList
    addressAns := "Fenwick Island, DE".toList
    priceAns := []
    cuisinesAns := "Seafood, Pizza".toList
    vibesAns := "Casual".toList
    goodForAns := "Groups".toList
    shortBlurbAns := "Good pizza.".toList
    longBlurbAns := []
    mustTryAns := []
    websiteAns := []
    menuUrlAns := []
    featuredAns := [] }

/-- A store that already holds both `grotto` and `grotto-12345`. -/
def elemsGrotto : List Json :=
  [recObj ("grotto".toList), recObj ("grotto-12345".toList)]

def fsGrotto : FS :=
  { restaurantsTxt := some (writeJsonTxt (Json.arr elemsGrotto))
    areasTxt := some (writeJsonTxt (Json.arr []))
    cuisinesTxt := some (writeJsonTxt (Json.arr [])) }

def resGrotto : MainOk :=
  match runMain fsGrotto ansGrotto 12345 with
  | Except.ok r => r
  | Except.error _ => default

/-- Answers whose cuisines line holds no items. -/
def ansNoCuisine : Answers := { ansGrotto with cuisinesAns := " , ".toList }

/-- Valid store and lookup tables of unrecognized shape (a bare number). -/
def fsTables : FS :=
  { restaurantsTxt := some (writeJsonTxt (Json.arr []))
    areasTxt := some (writeJsonTxt (Json.num 5))
    cuisinesTxt := some (writeJsonTxt (Json.num 5)) }

/-- The same file system with the areas table file absent. -/
def fsNoAreas : FS := { fsTables with areasTxt := none }

/-- A store already holding the slug `crabby-bills`. -/
def elemsCrabby : List Json := [recObj ("crabby-bills".toList)]

def fsCrabby : FS :=
  { restaurantsTxt := some (writeJsonTxt (Json.arr elemsCrabby))
    areasTxt := some (writeJsonTxt (Json.arr []))
    cuisinesTxt := some (writeJsonTxt (Json.arr [])) }

def ansCrabby : Answers := { ansGrotto with nameAns := "Crabby Bills".toList }

def resCrabby : MainOk :=
  match runMain fsCrabby ansCrabby 98765 with
  | Except.ok r => r
  | Except.error _ => default

/-- Answers with a free-text price. -/
def ansPriceCheap : Answers := { ansGrotto with priceAns := "cheap".toList }

def resTables : MainOk :=
  match runMain fsTables ansGrotto 0 with
  | Except.ok r => r
  | Except.error _ => default

/-! ## Lemmas: characters and generic lists -/

theorem charToNat_inj {c d : Char} (h : c.toNat = d.toNat) : c = d := by
  have h2 := congrArg Char.ofNat h
  rwa [Char.ofNat_toNat, Char.ofNat_toNat] at h2

theorem dropWhile_eq_self_of_all {p : Char → Bool} {l : List Char}
    (h : ∀ c ∈ l, p c = false) : l.dropWhile p = l := by
  cases l with
  | nil => rfl
  | cons a t => simp [List.dropWhile_cons, h a (by simp)]

theorem map_eq_self_of {f : Char → Char} {l : List Char}
    (h : ∀ c ∈ l, f c = c) : l.map f = l := by
  induction l with
  | nil => rfl
  | cons a t ih =>
    simp only [List.map_cons, h a (by simp)]
    rw [ih (fun c hc => h c (by simp [hc]))]

theorem flatMap_eq_self_of {f : Char → List Char} {l : List Char}
    (h : ∀ c ∈ l, f c = [c]) : l.flatMap f = l := by
  induction l with
  | nil => rfl
  | cons a t ih =>
    simp only [List.flatMap_cons, h a (by simp)]
    rw [ih (fun c hc => h c (by simp [hc]))]
    rfl

theorem filter_eq_self_of {p : Char → Bool} {l : List Char}
    (h : ∀ c ∈ l, p c = true) : l.filter p = l := by
  induction l with
  | nil => rfl
  | cons a t ih =>
    simp only [List.filter_cons, h a (by simp)]
    rw [if_pos trivial, ih (fun c hc => h c (by simp [hc]))]

/-! ## Lemmas: slug alphabet facts -/

theorem slugAlphabet_toNat {c : Char} (h : slugAlphabet c = true) :
    (97 ≤ c.toNat ∧ c.toNat ≤ 122) ∨ (48 ≤ c.toNat ∧ c.toNat ≤ 57) ∨ c.toNat = 45 := by
  simp [slugAlphabet, isSlugChar] at h
  rcases h with h | h
  · rcases h with h | h
    · exact Or.inl h
    · exact Or.inr (Or.inl h)
  · exact Or.inr (Or.inr h)

theorem isSlugChar_toNat {c : Char} (h : isSlugChar c = true) :
    (97 ≤ c.toNat ∧ c.toNat ≤ 122) ∨ (48 ≤ c.toNat ∧ c.toNat ≤ 57) := by
  simpa [isSlugChar] using h

theorem isSlugChar_not_hyphen {c : Char} (h : isSlugChar c = true) :
    (c.toNat == 45) = false := by
  have := isSlugChar_toNat h
  simp only [beq_eq_false_iff_ne, ne_eq]
  omega

theorem slugAlphabet_not_ws {c : Char} (h : slugAlphabet c = true) : jsWS c = false := by
  have := slugAlphabet_toNat h
  simp only [jsWS, Bool.or_eq_false_iff, beq_eq_false_iff_ne, ne_eq]
  omega

theorem slugAlphabet_lower {c : Char} (h : slugAlphabet c = true) : jsToLowerChar c = c := by
  have hn := slugAlphabet_toNat h
  unfold jsToLowerChar
  rw [if_neg, if_neg]
  · simp only [Bool.and_eq_true, decide_eq_true_eq, Bool.not_eq_true', beq_eq_false_iff_ne, ne_eq]
    omega
  · simp only [Bool.and_eq_true, decide_eq_true_eq]
    omega

theorem slugAlphabet_ascii {c : Char} (h : slugAlphabet c = true) : nfkdChar c = [c] := by
  have hn := slugAlphabet_toNat h
  unfold nfkdChar
  rw [if_pos]
  omega

theorem slugAlphabet_not_apos {c : Char} (h : slugAlphabet c = true) :
    (!(c.toNat == 39 || c.toNat == 0x2019)) = true := by
  have := slugAlphabet_toNat h
  simp only [Bool.not_eq_true', Bool.or_eq_false_iff, beq_eq_false_iff_ne, ne_eq]
  omega

theorem slugAlphabet_not_amp {c : Char} (h : slugAlphabet c = true) :
    (c.toNat == 38) = false := by
  have := slugAlphabet_toNat h
  simp only [beq_eq_false_iff_ne, ne_eq]
  omega

/-! ## Lemmas: hyphen structure of the collapse passes -/

theorem noDoubleHyphen_cons_of_ne {c : Char} (l : List Char) (h : (c.toNat == 45) = false) :
    noDoubleHyphen (c :: l) = noDoubleHyphen l := by
  cases l with
  | nil => simp [noDoubleHyphen]
  | cons b r => simp [noDoubleHyphen, h]

theorem noDoubleHyphen_cons_hyphen {l : List Char} (hh : headHyphen l = false)
    (hnd : noDoubleHyphen l = true) : noDoubleHyphen ('-' :: l) = true := by
  cases l with
  | nil => simp [noDoubleHyphen]
  | cons b r =>
    simp only [headHyphen, List.head?_cons] at hh
    simp [noDoubleHyphen, hh, hnd]

theorem noDoubleHyphen_tail {c : Char} {l : List Char} (h : noDoubleHyphen (c :: l) = true) :
    noDoubleHyphen l = true := by
  cases l with
  | nil => simp [noDoubleHyphen]
  | cons b r =>
    simp only [noDoubleHyphen, Bool.and_eq_true] at h
    exact h.2

theorem noDoubleHyphen_head {a : Char} {t : List Char} (ha : a.toNat = 45)
    (h : noDoubleHyphen (a :: t) = true) : headHyphen t = false := by
  cases t with
  | nil => simp [headHyphen]
  | cons b r =>
    simp only [noDoubleHyphen, Bool.and_eq_true, Bool.not_eq_true', Bool.and_eq_false_iff,
      beq_eq_false_iff_ne, ne_eq] at h
    simp only [headHyphen, List.head?_cons, beq_eq_false_iff_ne, ne_eq]
    rcases h.1 with h1 | h1
    · exact absurd ha h1
    · exact h1

theorem collapseNonAlnumAux_mem (b : Bool) (s : List Char) :
    ∀ c ∈ collapseNonAlnumAux b s, slugAlphabet c = true := by
  induction s generalizing b with
  | nil => simp [collapseNonAlnumAux]
  | cons a t ih =>
    intro c hc
    by_cases ha : isSlugChar a = true
    · simp only [collapseNonAlnumAux, if_pos ha, List.mem_cons] at hc
      rcases hc with h | h
      · subst h; simp [slugAlphabet, ha]
      · exact ih false c h
    · rw [Bool.not_eq_true] at ha
      cases b with
      | true =>
        simp only [collapseNonAlnumAux, ha, Bool.false_eq_true, if_false, if_true] at hc
        exact ih true c hc
      | false =>
        simp only [collapseNonAlnumAux, ha, Bool.false_eq_true, if_false, List.mem_cons] at hc
        rcases hc with h | h
        · subst h; decide
        · exact ih true c h

theorem collapseNonAlnumAux_true_head (s : List Char) :
    headHyphen (collapseNonAlnumAux true s) = false := by
  induction s with
  | nil => simp [collapseNonAlnumAux, headHyphen]
  | cons a t ih =>
    by_cases ha : isSlugChar a = true
    · simp only [collapseNonAlnumAux, if_pos ha, headHyphen, List.head?_cons]
      exact isSlugChar_not_hyphen ha
    · rw [Bool.not_eq_true] at ha
      simpa only [collapseNonAlnumAux, ha, Bool.false_eq_true, if_false, if_true] using ih

theorem collapseNonAlnumAux_noDouble (b : Bool) (s : List Char) :
    noDoubleHyphen (collapseNonAlnumAux b s) = true := by
  induction s generalizing b with
  | nil => simp [collapseNonAlnumAux, noDoubleHyphen]
  | cons a t ih =>
    by_cases ha : isSlugChar a = true
    · rw [collapseNonAlnumAux, if_pos ha,
        noDoubleHyphen_cons_of_ne _ (isSlugChar_not_hyphen ha)]
      exact ih false
    · rw [Bool.not_eq_true] at ha
      cases b with
      | true =>
        simpa only [collapseNonAlnumAux, ha, Bool.false_eq_true, if_false, if_true] using ih true
      | false =>
        simp only [collapseNonAlnumAux, ha, Bool.false_eq_true, if_false]
        exact noDoubleHyphen_cons_hyphen (collapseNonAlnumAux_true_head t) (ih true)

/-! ## Lemmas: trimming hyphens -/

theorem headHyphen_dropWhileHyphen (l : List Char) :
    headHyphen (l.dropWhile (fun c => c.toNat == 45)) = false := by
  induction l with
  | nil => simp [headHyphen]
  | cons a t ih =>
    by_cases h : (a.toNat == 45) = true
    · simpa [List.dropWhile_cons, h] using ih
    · rw [Bool.not_eq_true] at h
      simp [List.dropWhile_cons, h, headHyphen]

theorem lastHyphen_dropWhile (p : Char → Bool) (l : List Char)
    (h : lastHyphen l = false) : lastHyphen (l.dropWhile p) = false := by
  have hsuf : l.dropWhile p <:+ l := List.dropWhile_suffix p
  obtain ⟨t, ht⟩ := hsuf
  cases hd : l.dropWhile p with
  | nil => simp [lastHyphen]
  | cons a r =>
    have hlst : (l.dropWhile p).getLast? = l.getLast? := by
      conv_rhs => rw [← ht]
      rw [List.getLast?_append, hd]
      cases hg : (a :: r).getLast? with
      | none =>
        have hsome : (a :: r).getLast?.isSome := List.getLast?_isSome.mpr (by simp)
        rw [hg] at hsome
        simp at hsome
      | some x => simp
    rw [hd] at hlst
    unfold lastHyphen at h ⊢
    rw [hlst]
    exact h

theorem noDoubleHyphen_dropWhile (p : Char → Bool) {l : List Char}
    (h : noDoubleHyphen l = true) : noDoubleHyphen (l.dropWhile p) = true := by
  induction l with
  | nil => simpa using h
  | cons a t ih =>
    by_cases hp : p a = true
    · rw [List.dropWhile_cons, if_pos hp]
      exact ih (noDoubleHyphen_tail h)
    · rw [Bool.not_eq_true] at hp
      rw [List.dropWhile_cons, if_neg (by simp [hp])]
      exact h

theorem hyphRel_beq (l : List Char) :
    noDoubleHyphen l = true ↔ l.Chain' (fun a b => ¬(a.toNat = 45 ∧ b.toNat = 45)) := by
  induction l with
  | nil => simp [noDoubleHyphen]
  | cons a t ih =>
    cases t with
    | nil => simp [noDoubleHyphen]
    | cons b r =>
      rw [List.chain'_cons, ← ih]
      simp only [noDoubleHyphen, Bool.and_eq_true, Bool.not_eq_true', Bool.and_eq_false_iff,
        beq_eq_false_iff_ne, ne_eq]
      constructor
      · rintro ⟨h1, h2⟩
        refine ⟨fun hc => ?_, h2⟩
        rcases h1 with h | h
        · exact h hc.1
        · exact h hc.2
      · rintro ⟨h1, h2⟩
        refine ⟨?_, h2⟩
        by_cases ha : a.toNat = 45
        · exact Or.inr (fun hb => h1 ⟨ha, hb⟩)
        · exact Or.inl ha

theorem noDoubleHyphen_reverse (l : List Char) :
    noDoubleHyphen l.reverse = noDoubleHyphen l := by
  rw [Bool.eq_iff_iff, hyphRel_beq, hyphRel_beq, List.chain'_reverse]
  constructor
  · exact fun h => h.imp (fun a b hab hc => hab ⟨hc.2, hc.1⟩)
  · exact fun h => h.imp (fun a b hab hc => hab ⟨hc.2, hc.1⟩)

theorem trimHyphens_facts (l : List Char) (hnd : noDoubleHyphen l = true) :
    headHyphen (trimHyphens l) = false ∧ lastHyphen (trimHyphens l) = false ∧
    noDoubleHyphen (trimHyphens l) = true ∧ (∀ c ∈ trimHyphens l, c ∈ l) := by
  unfold trimHyphens
  refine ⟨?_, ?_, ?_, ?_⟩
  · unfold headHyphen
    rw [List.head?_reverse]
    have hlastArev : lastHyphen (l.dropWhile (fun c => c.toNat == 45)).reverse = false := by
      unfold lastHyphen
      rw [List.getLast?_reverse]
      have := headHyphen_dropWhileHyphen l
      unfold headHyphen at this
      exact this
    have := lastHyphen_dropWhile (fun c => c.toNat == 45)
      (l.dropWhile (fun c => c.toNat == 45)).reverse hlastArev
    unfold lastHyphen at this
    exact this
  · unfold lastHyphen
    rw [List.getLast?_reverse]
    have := headHyphen_dropWhileHyphen (l.dropWhile (fun c => c.toNat == 45)).reverse
    unfold headHyphen at this
    exact this
  · rw [noDoubleHyphen_reverse]
    apply noDoubleHyphen_dropWhile
    rw [noDoubleHyphen_reverse]
    exact noDoubleHyphen_dropWhile _ hnd
  · intro c hc
    rw [List.mem_reverse] at hc
    have h1 := (List.dropWhile_suffix (fun d : Char => d.toNat == 45)).subset hc
    rw [List.mem_reverse] at h1
    exact (List.dropWhile_suffix (fun d : Char => d.toNat == 45)).subset h1

/-! ## Lemmas: identity of the passes on already-clean strings -/

theorem collapseHyphensAux_id {l : List Char} (hnd : noDoubleHyphen l = true) :
    collapseHyphensAux false l = l ∧
      (headHyphen l = false → collapseHyphensAux true l = l) := by
  induction l with
  | nil => simp [collapseHyphensAux]
  | cons a t ih =>
    have iht := ih (noDoubleHyphen_tail hnd)
    by_cases ha : (a.toNat == 45) = true
    · have ha45 : a.toNat = 45 := by simpa using ha
      have haeq : a = '-' := charToNat_inj (by simpa using ha45)
      have hhead : headHyphen t = false := noDoubleHyphen_head ha45 hnd
      constructor
      · rw [collapseHyphensAux, if_pos ha]
        simp only [Bool.false_eq_true, if_false]
        rw [iht.2 hhead, haeq]
      · intro hh
        exfalso
        simp only [headHyphen, List.head?_cons, ha] at hh
        exact Bool.true_eq_false.mp hh
    · rw [Bool.not_eq_true] at ha
      constructor
      · rw [collapseHyphensAux, if_neg (by simp [ha]), iht.1]
      · intro _
        rw [collapseHyphensAux, if_neg (by simp [ha]), iht.1]

theorem collapseHyphens_id {l : List Char} (hnd : noDoubleHyphen l = true) :
    collapseHyphens l = l :=
  (collapseHyphensAux_id hnd).1

theorem collapseNonAlnumAux_id {l : List Char}
    (hall : ∀ c ∈ l, slugAlphabet c = true) (hnd : noDoubleHyphen l = true) :
    collapseNonAlnumAux false l = l ∧
      (headHyphen l = false → collapseNonAlnumAux true l = l) := by
  induction l with
  | nil => simp [collapseNonAlnumAux]
  | cons a t ih =>
    have iht := ih (fun c hc => hall c (by simp [hc])) (noDoubleHyphen_tail hnd)
    have ha := hall a (by simp)
    by_cases hs : isSlugChar a = true
    · constructor
      · rw [collapseNonAlnumAux, if_pos hs, iht.1]
      · intro _
        rw [collapseNonAlnumAux, if_pos hs, iht.1]
    · rw [Bool.not_eq_true] at hs
      have ha45 : a.toNat = 45 := by
        simp only [slugAlphabet, hs, Bool.false_or, beq_iff_eq] at ha
        exact ha
      have haeq : a = '-' := charToNat_inj (by simpa using ha45)
      have hhead : headHyphen t = false := noDoubleHyphen_head ha45 hnd
      constructor
      · rw [collapseNonAlnumAux, if_neg (by simp [hs]), if_neg (by simp),
          iht.2 hhead, haeq]
      · intro hh
        exfalso
        simp only [headHyphen, List.head?_cons, ha45, beq_self_eq_true] at hh
        exact Bool.true_eq_false.mp hh

theorem trimHyphens_id {l : List Char} (hh : headHyphen l = false)
    (hl : lastHyphen l = false) : trimHyphens l = l := by
  unfold trimHyphens
  have h1 : l.dropWhile (fun c => c.toNat == 45) = l := by
    cases l with
    | nil => rfl
    | cons a t =>
      simp only [headHyphen, List.head?_cons] at hh
      rw [List.dropWhile_cons, if_neg (by simp [hh])]
  rw [h1]
  have h2 : l.reverse.dropWhile (fun c => c.toNat == 45) = l.reverse := by
    cases hrev : l.reverse with
    | nil => rfl
    | cons a t =>
      have : lastHyphen l = headHyphen (a :: t) := by
        unfold lastHyphen headHyphen
        rw [← List.head?_reverse, hrev]
      rw [this] at hl
      simp only [headHyphen, List.head?_cons] at hl
      rw [List.dropWhile_cons, if_neg (by simp [hl])]
  rw [h2, List.reverse_reverse]

/-- Every output of the hyphen pipeline (collapse, trim, collapse) is clean. -/
theorem pipelineClean (w : List Char) :
    isCleanSlug (collapseHyphens (trimHyphens (collapseNonAlnum w))) = true := by
  have humem : ∀ c ∈ collapseNonAlnum w, slugAlphabet c = true :=
    collapseNonAlnumAux_mem false w
  have hund : noDoubleHyphen (collapseNonAlnum w) = true :=
    collapseNonAlnumAux_noDouble false w
  obtain ⟨hth, htl, htd, htm⟩ := trimHyphens_facts (collapseNonAlnum w) hund
  rw [collapseHyphens_id htd]
  unfold isCleanSlug
  rw [hth, htl, htd]
  have hall : (trimHyphens (collapseNonAlnum w)).all slugAlphabet = true :=
    List.all_eq_true.mpr (fun c hc => humem c (htm c hc))
  rw [hall]
  rfl

/-- The slugifier always produces a clean slug. -/
theorem slugify_clean (s : List Char) : isCleanSlug (slugify s) = true :=
  pipelineClean (replaceAmp (stripApos (nfkd (jsToLower (jsTrim s)))))

theorem jsTrim_id {l : List Char} (h : ∀ c ∈ l, jsWS c = false) : jsTrim l = l := by
  unfold jsTrim
  rw [dropWhile_eq_self_of_all h,
    dropWhile_eq_self_of_all (fun c hc => h c (List.mem_reverse.mp hc)),
    List.reverse_reverse]

theorem jsToLower_id {l : List Char} (h : ∀ c ∈ l, slugAlphabet c = true) :
    jsToLower l = l :=
  map_eq_self_of (fun c hc => slugAlphabet_lower (h c hc))

theorem nfkd_id {l : List Char} (h : ∀ c ∈ l, slugAlphabet c = true) : nfkd l = l :=
  flatMap_eq_self_of (fun c hc => slugAlphabet_ascii (h c hc))

theorem stripApos_id {l : List Char} (h : ∀ c ∈ l, slugAlphabet c = true) :
    stripApos l = l :=
  filter_eq_self_of (fun c hc => slugAlphabet_not_apos (h c hc))

theorem replaceAmp_id {l : List Char} (h : ∀ c ∈ l, slugAlphabet c = true) :
    replaceAmp l = l :=
  flatMap_eq_self_of (fun c hc => by
    simp only [slugAlphabet_not_amp (h c hc), Bool.false_eq_true, if_false])

/-- `slugify` fixes every clean slug. -/
theorem slugify_id_of_clean {t : List Char} (hc : isCleanSlug t = true) :
    slugify t = t := by
  have hparts : (((∀ x ∈ t, slugAlphabet x = true) ∧ headHyphen t = false) ∧
      lastHyphen t = false) ∧ noDoubleHyphen t = true := by
    simpa [isCleanSlug, Bool.and_eq_true, Bool.not_eq_true'] using hc
  obtain ⟨⟨⟨hmem, hh⟩, hl⟩, hnd⟩ := hparts
  unfold slugify
  rw [jsTrim_id (fun c hcm => slugAlphabet_not_ws (hmem c hcm)),
    jsToLower_id hmem, nfkd_id hmem, stripApos_id hmem, replaceAmp_id hmem]
  unfold collapseNonAlnum
  rw [(collapseNonAlnumAux_id hmem hnd).1, trimHyphens_id hh hl, collapseHyphens_id hnd]

/-! ## The claims about the slug normalizer -/

/-- C7: the slug normalizer is idempotent — for every text `x`,
`slugify (slugify x) = slugify x`. -/
theorem c7_normalize_idempotent (s : List Char) : slugify (slugify s) = slugify s :=
  slugify_id_of_clean (slugify_clean s)

/-- C9: the slug normalizer maps exactly the input `O'Brien's & Sons`
(apostrophes written as `Char.ofNat 39`) to `obriens-and-sons`, the composed
steps being trim, lowercase, NFKD, apostrophe stripping, ampersand
replacement, non-alphanumeric collapse, hyphen trim, hyphen collapse. -/
theorem c9_normalize_obriens :
    slugify (("O".toList) ++ Char.ofNat 39 :: ("Brien".toList) ++
        Char.ofNat 39 :: ("s & Sons".toList)) =
      "obriens-and-sons".toList := by rfl

/-- C10 (implicit): for every input, the slug normalizer's output is empty or
consists solely of lowercase ASCII letters, digits and hyphens, with no
leading hyphen, no trailing hyphen, and no two consecutive hyphens. -/
theorem c10_normalize_output_shape (s : List Char) : isCleanSlug (slugify s) = true :=
  slugify_clean s

/-! ## The claims about the lookup loaders (C3, C4) -/

/-- C3 (counterexample): the area loader does not tolerate the plain-string
table shape — `extractAreaKeys` on `["fenwick-island"]` returns `[]`, not
`["fenwick-island"]` as the claim states (property access on a string yields
`undefined`, which `filter(Boolean)` drops). -/
theorem c3_counterexample :
    extractAreaKeys (Json.arr [Json.str ("fenwick-island".toList)]) = [] ∧
      ([] : List Json) ≠ [Json.str ("fenwick-island".toList)] := by
  constructor
  · rfl
  · intro h
    exact List.noConfusion h

/-- C3 (amended): the area loader maps the object table
`[{"key": "fenwick-island", "name": "Fenwick Island"}]` to
`["fenwick-island"]` but maps the plain-string table `["fenwick-island"]` to
`[]`; the cuisine loader accepts both the plain-string and the object shape;
and on `[]` either loader returns `[]`. -/
theorem c3_lookup_shapes_amended :
    extractAreaKeys
        (Json.arr [Json.obj
          [("key".toList, Json.str ("fenwick-island".toList)),
           ("name".toList, Json.str ("Fenwick Island".toList))]]) =
      [Json.str ("fenwick-island".toList)] ∧
    extractAreaKeys (Json.arr [Json.str ("fenwick-island".toList)]) = [] ∧
    extractCuisineNames (Json.arr [Json.str ("fenwick-island".toList)]) =
      [Json.str ("fenwick-island".toList)] ∧
    extractCuisineNames
        (Json.arr [Json.obj [("name".toList, Json.str ("Seafood".toList))]]) =
      [Json.str ("Seafood".toList)] ∧
    extractAreaKeys (Json.arr []) = [] ∧
    extractCuisineNames (Json.arr []) = [] := by
  refine ⟨rfl, rfl, rfl, rfl, rfl, rfl⟩

/-! ## Lemmas: inverting a successful run -/

theorem interactPhase_ok_elim {elems : List Json} {a : Answers} {now : Nat} {r : MainOk}
    (h : interactPhase elems a now = Except.ok r) :
    (jsTrim a.nameAns).isEmpty = false ∧
    (candidateSlug a).isEmpty = false ∧
    (jsTrim a.areaKeyAns).isEmpty = false ∧
    (parseList a.cuisinesAns).isEmpty = false ∧
    r = commitResult elems a now := by
  unfold interactPhase at h
  split at h
  · exact Except.noConfusion h
  · split at h
    · exact Except.noConfusion h
    · split at h
      · exact Except.noConfusion h
      · split at h
        · exact Except.noConfusion h
        · rw [Except.ok.injEq] at h
          rename_i hname hslug harea hcuis
          rw [Bool.not_eq_true] at hname hslug harea hcuis
          exact ⟨hname, hslug, harea, hcuis, h.symm⟩

theorem runMain_ok_inv {fs : FS} {a : Answers} {now : Nat} {r : MainOk}
    (h : runMain fs a now = Except.ok r) :
    ∃ elems areaKeys cuisineNames,
      loadPhase fs = Except.ok (elems, areaKeys, cuisineNames) ∧
      interactPhase elems a now = Except.ok r := by
  unfold runMain at h
  split at h
  · exact Except.noConfusion h
  · rename_i e ak cn heq
    exact ⟨e, ak, cn, heq, h⟩

theorem loadPhase_ok_inv {fs : FS} {elems areaKeys cuisineNames : List Json}
    (h : loadPhase fs = Except.ok (elems, areaKeys, cuisineNames)) :
    readJsonF fs.restaurantsTxt = Except.ok (Json.arr elems) := by
  unfold loadPhase at h
  split at h
  · exact Except.noConfusion h
  · rename_i rj heq
    split at h
    · rename_i l
      split at h
      · exact Except.noConfusion h
      · split at h
        · exact Except.noConfusion h
        · rw [Except.ok.injEq, Prod.mk.injEq] at h
          rw [heq, h.1]
    · exact Except.noConfusion h

/-! ## Lemmas: the time-derived suffix is non-empty and numeric -/

theorem digitChar_isDigit {d : Nat} (h : d < 10) : (digitChar d).isDigit = true := by
  interval_cases d <;> decide

theorem natToDigitsAux_ne_nil : ∀ fuel n, n < fuel → natToDigitsAux fuel n ≠ [] := by
  intro fuel
  induction fuel with
  | zero => omega
  | succ f ih =>
    intro n hn
    by_cases h10 : n < 10
    · rw [natToDigitsAux, if_pos h10]
      simp
    · rw [natToDigitsAux, if_neg h10]
      simp

theorem natToDigitsAux_all_digit : ∀ fuel n, n < fuel →
    (natToDigitsAux fuel n).all Char.isDigit = true := by
  intro fuel
  induction fuel with
  | zero => omega
  | succ f ih =>
    intro n hn
    by_cases h10 : n < 10
    · rw [natToDigitsAux, if_pos h10]
      simp [digitChar_isDigit h10]
    · rw [natToDigitsAux, if_neg h10]
      rw [List.all_append]
      have hdiv : n / 10 < f := by
        have hlt : n / 10 < n := Nat.div_lt_self (by omega) (by omega)
        omega
      rw [ih (n / 10) hdiv]
      simp [digitChar_isDigit (Nat.mod_lt n (by omega))]

theorem natToDigits_ne_nil (n : Nat) : natToDigits n ≠ [] :=
  natToDigitsAux_ne_nil (n + 1) n (by omega)

theorem natToDigits_all_digit (n : Nat) : (natToDigits n).all Char.isDigit = true :=
  natToDigitsAux_all_digit (n + 1) n (by omega)

theorem jsSliceLast5_ne_nil {l : List Char} (h : l ≠ []) : jsSliceLast5 l ≠ [] := by
  unfold jsSliceLast5
  intro hc
  have hlen := congrArg List.length hc
  rw [List.length_drop] at hlen
  simp only [List.length_nil] at hlen
  have : l.length ≠ 0 := fun h0 => h (List.length_eq_zero.mp h0)
  omega

theorem jsSliceLast5_all_digit {l : List Char} (h : l.all Char.isDigit = true) :
    (jsSliceLast5 l).all Char.isDigit = true := by
  apply List.all_eq_true.mpr
  intro c hc
  exact List.all_eq_true.mp h c ((List.drop_suffix _ l).subset hc)

/-! ## The claims about slug assembly and commit (C1, C6) -/

theorem candidateSlug_of_no_explicit {a : Answers} (h : a.slugAns = []) :
    candidateSlug a = slugify (jsTrim a.nameAns) := by
  unfold candidateSlug
  rw [h]
  have he : (slugify ([] : List Char)).isEmpty = true := rfl
  rw [if_pos he]

/-- C1 (counterexample): with no explicit slug, name `Grotto`, a
pre-existing store whose truthy slugs are `grotto` and `grotto-12345`, and a
current time whose last five digits are `12345`, the assembled record's slug
is `grotto-12345` — which is already present in the pre-existing slug set,
contradicting the claim's conjunct that the final slug is absent from it. -/
theorem c1_counterexample :
    assembledSlug fsGrotto ansGrotto 12345 = some ("grotto-12345".toList) ∧
    hasSlug elemsGrotto ("grotto-12345".toList) = true ∧
    ansGrotto.slugAns = [] ∧
    slugify (jsTrim ansGrotto.nameAns) = "grotto".toList ∧
    hasSlug elemsGrotto ("grotto".toList) = true ∧
    readJsonF fsGrotto.restaurantsTxt = Except.ok (Json.arr elemsGrotto) := by
  refine ⟨?_, ?_, ?_, ?_, ?_, ?_⟩ <;> rfl

/-- C1 (amended): in a successful run with no explicit slug, the assembled
record's slug equals `slugify name` when that value is not already a truthy
slug of the pre-existing store; otherwise it is `slugify name` followed by a
hyphen and a non-empty numeric suffix (the last five decimal digits of the
current time).  The suffixed slug is not re-checked against the store, so it
can itself coincide with a pre-existing slug. -/
theorem c1_slug_assembly_amended (fs : FS) (a : Answers) (now : Nat) (r : MainOk)
    (elems areaKeys cuisineNames : List Json)
    (hload : loadPhase fs = Except.ok (elems, areaKeys, cuisineNames))
    (hr : runMain fs a now = Except.ok r)
    (hnoslug : a.slugAns = []) :
    (hasSlug elems (slugify (jsTrim a.nameAns)) = false →
      r.entry.slug = slugify (jsTrim a.nameAns)) ∧
    (hasSlug elems (slugify (jsTrim a.nameAns)) = true →
      r.entry.slug = slugify (jsTrim a.nameAns) ++ '-' :: jsSliceLast5 (natToDigits now) ∧
      jsSliceLast5 (natToDigits now) ≠ [] ∧
      (jsSliceLast5 (natToDigits now)).all Char.isDigit = true) := by
  obtain ⟨elems2, ak2, cn2, hl2, hi2⟩ := runMain_ok_inv hr
  rw [hload] at hl2
  rw [Except.ok.injEq, Prod.mk.injEq, Prod.mk.injEq] at hl2
  obtain ⟨heq, -, -⟩ := hl2
  subst heq
  obtain ⟨-, -, -, -, hrEq⟩ := interactPhase_ok_elim hi2
  have hslug : r.entry.slug = finalSlug elems a now := by rw [hrEq]; rfl
  rw [hslug]
  unfold finalSlug
  rw [candidateSlug_of_no_explicit hnoslug]
  constructor
  · intro hcol
    rw [if_neg (by simp [hcol])]
  · intro hcol
    rw [if_pos hcol]
    exact ⟨rfl, jsSliceLast5_ne_nil (natToDigits_ne_nil now),
      jsSliceLast5_all_digit (natToDigits_all_digit now)⟩

/-- C1 (amended, witness): the collision branch at the concrete inputs. -/
theorem c1_slug_assembly_amended_witness :
    resGrotto.entry.slug =
      slugify (jsTrim ansGrotto.nameAns) ++ '-' :: jsSliceLast5 (natToDigits 12345) ∧
    jsSliceLast5 (natToDigits 12345) ≠ [] ∧
    (jsSliceLast5 (natToDigits 12345)).all Char.isDigit = true :=
  (c1_slug_assembly_amended fsGrotto ansGrotto 12345 resGrotto
    elemsGrotto (extractAreaKeys (Json.arr [])) (extractCuisineNames (Json.arr []))
    rfl rfl rfl).2 rfl

/-- C6: commit appends the new record at the end — in every successful run
the final store is the parsed pre-existing sequence followed by the encoded
committed record, so every pre-existing element is present unmodified with
relative order preserved, and the new record is last; moreover, when the
operator supplies no explicit slug and the name normalizes to a slug already
present in the store, the committed record's final slug differs from it
(while the original record is still among the output elements). -/
theorem c6_commit_appends (fs : FS) (a : Answers) (now : Nat) (r : MainOk)
    (elems areaKeys cuisineNames : List Json)
    (hload : loadPhase fs = Except.ok (elems, areaKeys, cuisineNames))
    (hr : runMain fs a now = Except.ok r) :
    r.store = elems ++ [encodeRecord r.entry] ∧
    (∀ x ∈ elems, x ∈ r.store) ∧
    r.store.getLast? = some (encodeRecord r.entry) ∧
    (a.slugAns = [] → hasSlug elems (slugify (jsTrim a.nameAns)) = true →
      r.entry.slug ≠ slugify (jsTrim a.nameAns)) := by
  obtain ⟨elems2, ak2, cn2, hl2, hi2⟩ := runMain_ok_inv hr
  rw [hload] at hl2
  rw [Except.ok.injEq, Prod.mk.injEq, Prod.mk.injEq] at hl2
  obtain ⟨heq, -, -⟩ := hl2
  subst heq
  obtain ⟨-, -, -, -, hrEq⟩ := interactPhase_ok_elim hi2
  have hstore : r.store = elems ++ [encodeRecord r.entry] := by rw [hrEq]; rfl
  refine ⟨hstore, ?_, ?_, ?_⟩
  · intro x hx
    rw [hstore]
    exact List.mem_append_left _ hx
  · rw [hstore]
    exact List.getLast?_concat _
  · intro hnoslug hcol
    have hslug : r.entry.slug = finalSlug elems a now := by rw [hrEq]; rfl
    rw [hslug]
    unfold finalSlug
    rw [candidateSlug_of_no_explicit hnoslug, if_pos hcol]
    intro hbad
    have hlen := congrArg List.length hbad
    rw [List.length_append, List.length_cons] at hlen
    omega

/-- C6 (witness): adding a record whose name normalizes to the pre-existing
slug `crabby-bills` leaves the original element in place and commits a
different slug. -/
theorem c6_commit_appends_witness :
    resCrabby.store = elemsCrabby ++ [encodeRecord resCrabby.entry] ∧
    resCrabby.store.getLast? = some (encodeRecord resCrabby.entry) ∧
    resCrabby.entry.slug ≠ slugify (jsTrim ansCrabby.nameAns) := by
  have h := c6_commit_appends fsCrabby ansCrabby 98765 resCrabby
    elemsCrabby (extractAreaKeys (Json.arr [])) (extractCuisineNames (Json.arr []))
    rfl rfl
  exact ⟨h.1, h.2.2.1, h.2.2.2 rfl rfl⟩

/-! ## The claims about aborting runs (C2, C4) -/

/-- C2: in every run whose cuisines answer yields the empty list after
splitting, trimming and dropping empties, the run fails with a fatal error,
the process exit status is 1, and the primary store file keeps its prior
contents byte for byte (the single store write happens only on the success
path, after all validation). -/
theorem c2_empty_cuisines_abort (fs : FS) (a : Answers) (now : Nat)
    (h : parseList a.cuisinesAns = []) :
    (∃ e, runMain fs a now = Except.error e) ∧
    exitCode fs a now = 1 ∧
    storeAfter fs a now = fs.restaurantsTxt := by
  have herr : ∀ r, runMain fs a now ≠ Except.ok r := by
    intro r hr
    obtain ⟨elems, ak, cn, hl, hi⟩ := runMain_ok_inv hr
    obtain ⟨-, -, -, hcuis, -⟩ := interactPhase_ok_elim hi
    rw [h] at hcuis
    simp at hcuis
  cases hrun : runMain fs a now with
  | error e =>
    refine ⟨⟨e, rfl⟩, ?_, ?_⟩
    · unfold exitCode
      rw [hrun]
    · unfold storeAfter
      rw [hrun]
  | ok r => exact absurd hrun (herr r)

/-- C2 (witness): a concrete run with an item-free cuisines answer against a
valid store. -/
theorem c2_empty_cuisines_abort_witness :
    parseList ansNoCuisine.cuisinesAns = [] ∧
    exitCode fsGrotto ansNoCuisine 0 = 1 ∧
    storeAfter fsGrotto ansNoCuisine 0 = fsGrotto.restaurantsTxt :=
  ⟨rfl, (c2_empty_cuisines_abort fsGrotto ansNoCuisine 0 rfl).2.1,
    (c2_empty_cuisines_abort fsGrotto ansNoCuisine 0 rfl).2.2⟩

/-- C4 (counterexample): loading a reference table can make the run fail —
with everything else identical and valid, the run succeeds when the areas
table file is present but fails when it is absent (`readJson` rejects and
nothing catches it), contradicting "never causes the run to fail". -/
theorem c4_counterexample :
    runSucceeds fsTables ansGrotto 0 = true ∧
    runSucceeds fsNoAreas ansGrotto 0 = false ∧
    fsNoAreas = { fsTables with areasTxt := none } := by
  refine ⟨?_, ?_, ?_⟩ <;> rfl

/-- C4 (amended): a loaded table value of unrecognized shape never aborts
the run — the extractors return `[]` on any non-array, and the load phase
succeeds whatever JSON the two table files hold — but an absent or
malformed table file fails the read itself and aborts the run. -/
theorem c4_lookup_failure_amended :
    (∀ j : Json, (∀ l, j ≠ Json.arr l) →
      extractAreaKeys j = [] ∧ extractCuisineNames j = []) ∧
    (∀ (fs : FS) (elems : List Json) (ta tc : List Char) (ja jc : Json),
      readJsonF fs.restaurantsTxt = Except.ok (Json.arr elems) →
      fs.areasTxt = some ta → jsonParse ta = some ja →
      fs.cuisinesTxt = some tc → jsonParse tc = some jc →
      loadPhase fs = Except.ok (elems, extractAreaKeys ja, extractCuisineNames jc)) := by
  constructor
  · intro j hj
    cases j with
    | arr l => exact absurd rfl (hj l)
    | null => exact ⟨rfl, rfl⟩
    | bool b => exact ⟨rfl, rfl⟩
    | num n => exact ⟨rfl, rfl⟩
    | str s => exact ⟨rfl, rfl⟩
    | obj f => exact ⟨rfl, rfl⟩
  · intro fs elems ta tc ja jc hr ha hpa hc hpc
    have hA : readJsonF fs.areasTxt = Except.ok ja := by
      rw [ha]
      simp only [readJsonF, hpa]
    have hC : readJsonF fs.cuisinesTxt = Except.ok jc := by
      rw [hc]
      simp only [readJsonF, hpc]
    unfold loadPhase
    rw [hr, hA, hC]

/-- C4 (amended, witness): both table files holding the bare number `5` — an
unrecognized shape — still load, with empty suggestion lists. -/
theorem c4_lookup_failure_amended_witness :
    extractAreaKeys (Json.num 5) = [] ∧
    loadPhase fsTables =
      Except.ok ([], extractAreaKeys (Json.num 5), extractCuisineNames (Json.num 5)) :=
  ⟨(c4_lookup_failure_amended.1 (Json.num 5) (fun _ h => Json.noConfusion h)).1,
    c4_lookup_failure_amended.2 fsTables [] (writeJsonTxt (Json.num 5))
      (writeJsonTxt (Json.num 5)) (Json.num 5) (Json.num 5) rfl rfl rfl rfl rfl⟩

/-! ## The claim about the committed price (C8) -/

/-- C8 (counterexample): the tier set is not enforced — with the price
answer `cheap` the committed record's price is `cheap`, which is none of
`$`, `$$`, `$$$`. -/
theorem c8_counterexample :
    committedPrice fsTables ansPriceCheap 0 = some ("cheap".toList) ∧
    "cheap".toList ≠ "$".toList ∧
    "cheap".toList ≠ "$$".toList ∧
    "cheap".toList ≠ "$$$".toList := by
  refine ⟨?_, ?_, ?_, ?_⟩
  · rfl
  · decide
  · decide
  · decide

/-- C8 (amended): in every successful run the committed record's price
equals the operator's input trimmed, defaulting to `$$` when that is empty;
membership in the tier set `{$, $$, $$$}` is not validated. -/
theorem c8_price_amended (fs : FS) (a : Answers) (now : Nat) (r : MainOk)
    (h : runMain fs a now = Except.ok r) :
    r.entry.price =
      (if (jsTrim a.priceAns).isEmpty then ("$$".toList) else jsTrim a.priceAns) := by
  obtain ⟨elems, ak, cn, hl, hi⟩ := runMain_ok_inv h
  obtain ⟨-, -, -, -, hrEq⟩ := interactPhase_ok_elim hi
  rw [hrEq]
  rfl

/-- C8 (amended, witness): an empty price answer commits the default `$$`. -/
theorem c8_price_amended_witness :
    resTables.entry.price = "$$".toList :=
  (c8_price_amended fsTables ansGrotto 0 resTables rfl).trans (by rfl)

/-! ## Lemmas: whitespace skipping -/

theorem skipWs_append_ws {ws s : List Char} (h : ∀ c ∈ ws, isJsonWs c = true) :
    skipWs (ws ++ s) = skipWs s := by
  induction ws with
  | nil => rfl
  | cons a t ih =>
    unfold skipWs at ih ⊢
    rw [List.cons_append, List.dropWhile_cons, if_pos (h a (by simp))]
    exact ih (fun c hc => h c (by simp [hc]))

theorem skipWs_cons_not {c : Char} (s : List Char) (h : isJsonWs c = false) :
    skipWs (c :: s) = c :: s := by
  unfold skipWs
  rw [List.dropWhile_cons, if_neg (by simp [h])]

theorem indentChars_ws (ind : Nat) : ∀ c ∈ indentChars ind, isJsonWs c = true := by
  intro c hc
  unfold indentChars at hc
  rw [List.eq_of_mem_replicate hc]
  decide

/-! ## Lemmas: round trip of string escaping -/

theorem hexDigitChar_hexVal {d : Nat} (h : d < 16) : hexVal (hexDigitChar d) = some d := by
  interval_cases d <;> decide

theorem parseStringBody_escape (s : List Char) (rest : List Char) :
    parseStringBody ((s.flatMap escapeChar) ++ '"' :: rest) = some (s, rest) := by
  induction s with
  | nil => rfl
  | cons c t ih =>
    rw [List.flatMap_cons, List.append_assoc]
    by_cases h34 : c.toNat = 34
    · have : escapeChar c = ['\\', '"'] := by
        unfold escapeChar
        rw [if_pos (by simp [h34])]
      rw [this]
      show parseStringEsc ('"' :: (t.flatMap escapeChar ++ '"' :: rest)) = _
      unfold parseStringEsc
      rw [if_neg (by decide)]
      have hu : unescapeChar '"' = some '"' := by decide
      rw [hu, ih]
      have hc : c = '"' := charToNat_inj (by simpa using h34)
      rw [hc]
      rfl
    · by_cases h92 : c.toNat = 92
      · have : escapeChar c = ['\\', '\\'] := by
          unfold escapeChar
          rw [if_neg (by simp [h92]), if_pos (by simp [h92])]
        rw [this]
        show parseStringEsc ('\\' :: (t.flatMap escapeChar ++ '"' :: rest)) = _
        unfold parseStringEsc
        rw [if_neg (by decide)]
        have hu : unescapeChar '\\' = some '\\' := by decide
        rw [hu, ih]
        have hc : c = '\\' := charToNat_inj (by simpa using h92)
        rw [hc]
        rfl
      · by_cases hctl : c.toNat < 32
        · by_cases h8 : c.toNat = 8
          · have : escapeChar c = ['\\', 'b'] := by
              unfold escapeChar
              rw [if_neg (by simp [h34]), if_neg (by simp [h92]), if_pos (by simp [h8])]
            rw [this]
            show parseStringEsc ('b' :: (t.flatMap escapeChar ++ '"' :: rest)) = _
            unfold parseStringEsc
            rw [if_neg (by decide)]
            have hu : unescapeChar 'b' = some (Char.ofNat 8) := by decide
            rw [hu, ih]
            have hc : c = Char.ofNat 8 := charToNat_inj (by simpa using h8)
            rw [hc]
            rfl
          · by_cases h9 : c.toNat = 9
            · have : escapeChar c = ['\\', 't'] := by
                unfold escapeChar
                rw [if_neg (by simp [h34]), if_neg (by simp [h92]), if_neg (by simp [h8]),
                  if_pos (by simp [h9])]
              rw [this]
              show parseStringEsc ('t' :: (t.flatMap escapeChar ++ '"' :: rest)) = _
              unfold parseStringEsc
              rw [if_neg (by decide)]
              have hu : unescapeChar 't' = some '\t' := by decide
              rw [hu, ih]
              have hc : c = '\t' := charToNat_inj (by simpa using h9)
              rw [hc]
              rfl
            · by_cases h10 : c.toNat = 10
              · have : escapeChar c = ['\\', 'n'] := by
                  unfold escapeChar
                  rw [if_neg (by simp [h34]), if_neg (by simp [h92]), if_neg (by simp [h8]),
                    if_neg (by simp [h9]), if_pos (by simp [h10])]
                rw [this]
                show parseStringEsc ('n' :: (t.flatMap escapeChar ++ '"' :: rest)) = _
                unfold parseStringEsc
                rw [if_neg (by decide)]
                have hu : unescapeChar 'n' = some '\n' := by decide
                rw [hu, ih]
                have hc : c = '\n' := charToNat_inj (by simpa using h10)
                rw [hc]
                rfl
              · by_cases h12 : c.toNat = 12
                · have : escapeChar c = ['\\', 'f'] := by
                    unfold escapeChar
                    rw [if_neg (by simp [h34]), if_neg (by simp [h92]), if_neg (by simp [h8]),
                      if_neg (by simp [h9]), if_neg (by simp [h10]), if_pos (by simp [h12])]
                  rw [this]
                  show parseStringEsc ('f' :: (t.flatMap escapeChar ++ '"' :: rest)) = _
                  unfold parseStringEsc
                  rw [if_neg (by decide)]
                  have hu : unescapeChar 'f' = some (Char.ofNat 12) := by decide
                  rw [hu, ih]
                  have hc : c = Char.ofNat 12 := charToNat_inj (by simpa using h12)
                  rw [hc]
                  rfl
                · by_cases h13 : c.toNat = 13
                  · have : escapeChar c = ['\\', 'r'] := by
                      unfold escapeChar
                      rw [if_neg (by simp [h34]), if_neg (by simp [h92]), if_neg (by simp [h8]),
                        if_neg (by simp [h9]), if_neg (by simp [h10]), if_neg (by simp [h12]),
                        if_pos (by simp [h13])]
                    rw [this]
                    show parseStringEsc ('r' :: (t.flatMap escapeChar ++ '"' :: rest)) = _
                    unfold parseStringEsc
                    rw [if_neg (by decide)]
                    have hu : unescapeChar 'r' = some (Char.ofNat 13) := by decide
                    rw [hu, ih]
                    have hc : c = Char.ofNat 13 := charToNat_inj (by simpa using h13)
                    rw [hc]
                    rfl
                  · -- \u00XX escape
                    have hesc : escapeChar c =
                        ['\\', 'u', '0', '0', hexDigitChar (c.toNat / 16),
                          hexDigitChar (c.toNat % 16)] := by
                      unfold escapeChar
                      rw [if_neg (by simp [h34]), if_neg (by simp [h92]), if_neg (by simp [h8]),
                        if_neg (by simp [h9]), if_neg (by simp [h10]), if_neg (by simp [h12]),
                        if_neg (by simp [h13]), if_pos (by simpa using hctl)]
                    rw [hesc]
                    show parseStringEsc ('u' :: '0' :: '0' :: hexDigitChar (c.toNat / 16) ::
                      hexDigitChar (c.toNat % 16) :: (t.flatMap escapeChar ++ '"' :: rest)) = _
                    unfold parseStringEsc
                    rw [if_pos (by decide)]
                    have hv0 : hexVal '0' = some 0 := by decide
                    have hvh : hexVal (hexDigitChar (c.toNat / 16)) = some (c.toNat / 16) :=
                      hexDigitChar_hexVal (by omega)
                    have hvl : hexVal (hexDigitChar (c.toNat % 16)) = some (c.toNat % 16) :=
                      hexDigitChar_hexVal (Nat.mod_lt _ (by omega))
                    simp only [hv0, hvh, hvl, ih, Option.map_some']
                    have harith : ((0 * 16 + 0) * 16 + c.toNat / 16) * 16 + c.toNat % 16 =
                        c.toNat := by omega
                    rw [harith, Char.ofNat_toNat]
        · -- plain character, emitted verbatim
          have hesc : escapeChar c = [c] := by
            unfold escapeChar
            rw [if_neg (by simp [h34]), if_neg (by simp [h92]), if_neg (by simp; omega),
              if_neg (by simp; omega), if_neg (by simp; omega), if_neg (by simp; omega),
              if_neg (by simp; omega), if_neg (by omega)]
          rw [hesc]
          show parseStringBody (c :: (t.flatMap escapeChar ++ '"' :: rest)) = _
          unfold parseStringBody
          rw [if_neg (by simp [h34]), if_neg (by simp [h92]), if_neg (by omega), ih]
          rfl

/-! ## Lemmas: round trip of integer literals -/

theorem digitChar_toNat {d : Nat} (h : d < 10) : (digitChar d).toNat = 48 + d := by
  interval_cases d <;> decide

theorem digitsVal_append_one (A : List Char) (c : Char) :
    digitsVal (A ++ [c]) = digitsVal A * 10 + (c.toNat - 48) := by
  unfold digitsVal
  rw [List.foldl_append]
  rfl

theorem natToDigitsAux_val : ∀ fuel n, n < fuel →
    digitsVal (natToDigitsAux fuel n) = n := by
  intro fuel
  induction fuel with
  | zero => omega
  | succ f ih =>
    intro n hn
    by_cases h10 : n < 10
    · rw [natToDigitsAux, if_pos h10]
      show digitsVal ([] ++ [digitChar n]) = n
      rw [digitsVal_append_one]
      unfold digitsVal
      simp [digitChar_toNat h10]
    · rw [natToDigitsAux, if_neg h10]
      rw [digitsVal_append_one]
      have hdiv : n / 10 < f := by
        have hlt : n / 10 < n := Nat.div_lt_self (by omega) (by omega)
        omega
      rw [ih (n / 10) hdiv, digitChar_toNat (Nat.mod_lt _ (by omega))]
      omega

theorem natToDigits_val (n : Nat) : digitsVal (natToDigits n) = n :=
  natToDigitsAux_val (n + 1) n (by omega)

theorem natToDigitsAux_head_ne_zero : ∀ fuel n, n < fuel → 0 < n → ∀ c,
    (natToDigitsAux fuel n).head? = some c → c.toNat ≠ 48 := by
  intro fuel
  induction fuel with
  | zero => omega
  | succ f ih =>
    intro n hn hpos c hc
    by_cases h10 : n < 10
    · rw [natToDigitsAux, if_pos h10] at hc
      simp only [List.head?_cons, Option.some.injEq] at hc
      rw [← hc, digitChar_toNat h10]
      omega
    · rw [natToDigitsAux, if_neg h10] at hc
      have hdiv : n / 10 < f := by
        have hlt : n / 10 < n := Nat.div_lt_self (by omega) (by omega)
        omega
      have hne := natToDigitsAux_ne_nil f (n / 10) hdiv
      rw [List.head?_append] at hc
      cases hh : (natToDigitsAux f (n / 10)).head? with
      | none =>
        rw [List.head?_eq_none_iff] at hh
        exact absurd hh hne
      | some d =>
        rw [hh] at hc
        simp only [Option.or_some, Option.some.injEq] at hc
        exact hc ▸ ih (n / 10) hdiv (by omega) d hh

theorem takeWhile_digits_append {D rest : List Char}
    (hD : ∀ c ∈ D, c.isDigit = true)
    (hr : match rest with | c :: _ => c.isDigit = false | [] => True) :
    (D ++ rest).takeWhile Char.isDigit = D ∧
    (D ++ rest).dropWhile Char.isDigit = rest := by
  induction D with
  | nil =>
    simp only [List.nil_append]
    cases rest with
    | nil => exact ⟨rfl, rfl⟩
    | cons c t =>
      constructor
      · rw [List.takeWhile_cons, if_neg (by simp [hr])]
      · rw [List.dropWhile_cons, if_neg (by simp [hr])]
  | cons a t ih =>
    obtain ⟨ih1, ih2⟩ := ih (fun c hc => hD c (by simp [hc]))
    constructor
    · rw [List.cons_append, List.takeWhile_cons, if_pos (hD a (by simp)), ih1]
    · rw [List.cons_append, List.dropWhile_cons, if_pos (hD a (by simp)), ih2]

theorem parseNatNum_digits (n : Nat) (rest : List Char)
    (hr : match rest with | c :: _ => c.isDigit = false | [] => True) :
    parseNatNum (natToDigits n ++ rest) = some (n, rest) := by
  have hD : ∀ c ∈ natToDigits n, c.isDigit = true :=
    fun c hc => List.all_eq_true.mp (natToDigits_all_digit n) c hc
  obtain ⟨htake, hdrop⟩ := takeWhile_digits_append hD hr
  unfold parseNatNum
  simp only [htake, hdrop]
  rw [if_neg (by simp [natToDigits_ne_nil n]), if_neg, natToDigits_val]
  intro hcond
  rw [Bool.and_eq_true] at hcond
  obtain ⟨hlen, hhead⟩ := hcond
  cases hh : (natToDigits n).head? with
  | none =>
    rw [hh] at hhead
    simp at hhead
  | some c =>
    rw [hh] at hhead
    simp only [beq_iff_eq] at hhead
    have hpos : 0 < n := by
      by_contra h0
      have hn0 : n = 0 := by omega
      subst hn0
      have : natToDigits 0 = ['0'] := rfl
      rw [this] at hlen
      simp at hlen
    exact natToDigitsAux_head_ne_zero (n + 1) n (by omega) hpos c hh (by simpa using hhead)

/-! ## Lemmas: first characters of printed values -/

theorem isDigit_toNat {c : Char} (h : c.isDigit = true) :
    48 ≤ c.toNat ∧ c.toNat ≤ 57 := by
  simp only [Char.isDigit, ge_iff_le, Bool.and_eq_true, decide_eq_true_eq] at h
  obtain ⟨h1, h2⟩ := h
  rw [UInt32.le_def, BitVec.le_def] at h1 h2
  exact ⟨h1, h2⟩

theorem toNat_isDigit {c : Char} (h1 : 48 ≤ c.toNat) (h2 : c.toNat ≤ 57) :
    c.isDigit = true := by
  simp only [Char.isDigit, ge_iff_le, Bool.and_eq_true, decide_eq_true_eq]
  constructor <;> rw [UInt32.le_def, BitVec.le_def] <;> exact by assumption

theorem natToDigits_head_digit (m : Nat) :
    ∃ c t, natToDigits m = c :: t ∧ c.isDigit = true := by
  obtain ⟨c, t, hct⟩ := List.exists_cons_of_ne_nil (natToDigits_ne_nil m)
  refine ⟨c, t, hct, ?_⟩
  have := natToDigits_all_digit m
  rw [hct] at this
  simp only [List.all_cons, Bool.and_eq_true] at this
  exact this.1

theorem intChars_head (i : Int) :
    ∃ c t, intChars i = c :: t ∧ (c.toNat = 45 ∨ (48 ≤ c.toNat ∧ c.toNat ≤ 57)) := by
  unfold intChars
  by_cases hneg : i < 0
  · rw [if_pos hneg]
    exact ⟨'-', natToDigits i.natAbs, rfl, Or.inl (by decide)⟩
  · rw [if_neg hneg]
    obtain ⟨c, t, hct, hd⟩ := natToDigits_head_digit i.natAbs
    exact ⟨c, t, hct, Or.inr (isDigit_toNat hd)⟩

theorem printValue_head (ind : Nat) (v : Json) :
    ∃ c t, printValue ind v = c :: t ∧ isJsonWs c = false ∧
      c.toNat ≠ 93 ∧ c.toNat ≠ 125 := by
  cases v with
  | num n =>
    obtain ⟨c, t, hct, hc⟩ := intChars_head n
    refine ⟨c, t, by rw [printValue, hct], ?_, ?_, ?_⟩
    · simp only [isJsonWs, Bool.or_eq_false_iff, beq_eq_false_iff_ne, ne_eq]
      omega
    · omega
    · omega
  | null =>
    refine ⟨'n', _, rfl, ?_, ?_, ?_⟩ <;> decide
  | bool b =>
    cases b
    · refine ⟨'f', _, rfl, ?_, ?_, ?_⟩ <;> decide
    · refine ⟨'t', _, rfl, ?_, ?_, ?_⟩ <;> decide
  | str s =>
    refine ⟨'"', _, rfl, ?_, ?_, ?_⟩ <;> decide
  | arr l =>
    cases l
    · refine ⟨'[', _, rfl, ?_, ?_, ?_⟩ <;> decide
    · refine ⟨'[', _, rfl, ?_, ?_, ?_⟩ <;> decide
  | obj l =>
    cases l
    · refine ⟨'{', _, rfl, ?_, ?_, ?_⟩ <;> decide
    · refine ⟨'{', _, rfl, ?_, ?_, ?_⟩ <;> decide

/-! ## Lemmas: the fuel measures are positive -/

theorem jsonFuel_pos (v : Json) : 1 ≤ jsonFuel v := by
  cases v with
  | arr l => cases l <;> simp [jsonFuel]
  | obj l => cases l <;> simp [jsonFuel]
  | null => simp [jsonFuel]
  | bool b => simp [jsonFuel]
  | num n => simp [jsonFuel]
  | str s => simp [jsonFuel]

theorem elemsFuel_pos (l : List Json) : 1 ≤ elemsFuel l := by
  cases l with
  | nil => simp [elemsFuel]
  | cons x xs => cases xs <;> simp [elemsFuel]

theorem fieldsFuel_pos (l : List (List Char × Json)) : 1 ≤ fieldsFuel l := by
  cases l with
  | nil => simp [fieldsFuel]
  | cons f fs =>
    obtain ⟨k, v⟩ := f
    cases fs <;> simp [fieldsFuel]

theorem skipWs_elems_head (ind : Nat) (x : Json) (xs : List Json) (R : List Char) :
    ∃ c0 T, skipWs ('\n' :: (printElems ind (x :: xs) ++ R)) = c0 :: T ∧
      c0.toNat ≠ 93 ∧ c0.toNat ≠ 125 ∧ isJsonWs c0 = false := by
  obtain ⟨c0, t, hct, hws, h93, h125⟩ := printValue_head ind x
  cases xs with
  | nil =>
    refine ⟨c0, t ++ R, ?_, h93, h125, hws⟩
    rw [show ('\n' :: (printElems ind [x] ++ R)) =
      ('\n' :: indentChars ind) ++ (printValue ind x ++ R) by
        simp [printElems, List.append_assoc]]
    rw [skipWs_append_ws (by
      intro c hc
      rcases List.mem_cons.mp hc with h | h
      · subst h; decide
      · exact indentChars_ws ind c h)]
    rw [hct, List.cons_append, skipWs_cons_not _ hws]
  | cons y ys =>
    refine ⟨c0, t ++ (',' :: '\n' :: printElems ind (y :: ys) ++ R), ?_, h93, h125, hws⟩
    rw [show ('\n' :: (printElems ind (x :: y :: ys) ++ R)) =
      ('\n' :: indentChars ind) ++
        (printValue ind x ++ (',' :: '\n' :: printElems ind (y :: ys) ++ R)) by
        simp [printElems, List.append_assoc]]
    rw [skipWs_append_ws (by
      intro c hc
      rcases List.mem_cons.mp hc with h | h
      · subst h; decide
      · exact indentChars_ws ind c h)]
    rw [hct, List.cons_append, skipWs_cons_not _ hws]

theorem skipWs_fields_head (ind : Nat) (k : List Char) (v : Json)
    (fs : List (List Char × Json)) (R : List Char) :
    ∃ T, skipWs ('\n' :: (printFields ind ((k, v) :: fs) ++ R)) = '"' :: T := by
  cases fs with
  | nil =>
    refine ⟨(k.flatMap escapeChar ++ ['"']) ++ (':' :: ' ' :: printValue ind v ++ R), ?_⟩
    rw [show ('\n' :: (printFields ind [(k, v)] ++ R)) =
      ('\n' :: indentChars ind) ++
        ('"' :: ((k.flatMap escapeChar ++ ['"']) ++ (':' :: ' ' :: printValue ind v ++ R))) by
        simp [printFields, printStr, List.append_assoc]]
    rw [skipWs_append_ws (by
      intro c hc
      rcases List.mem_cons.mp hc with h | h
      · subst h; decide
      · exact indentChars_ws ind c h)]
    rw [skipWs_cons_not _ (by decide)]
  | cons f2 fs2 =>
    refine ⟨(k.flatMap escapeChar ++ ['"']) ++ (':' :: ' ' :: printValue ind v ++
      (',' :: '\n' :: printFields ind (f2 :: fs2) ++ R)), ?_⟩
    rw [show ('\n' :: (printFields ind ((k, v) :: f2 :: fs2) ++ R)) =
      ('\n' :: indentChars ind) ++
        ('"' :: ((k.flatMap escapeChar ++ ['"']) ++ (':' :: ' ' :: printValue ind v ++
          (',' :: '\n' :: printFields ind (f2 :: fs2) ++ R)))) by
        simp [printFields, printStr, List.append_assoc]]
    rw [skipWs_append_ws (by
      intro c hc
      rcases List.mem_cons.mp hc with h | h
      · subst h; decide
      · exact indentChars_ws ind c h)]
    rw [skipWs_cons_not _ (by decide)]

theorem parse_print_roundtrip : ∀ fuel : Nat,
    (∀ (v : Json) (ind : Nat) (ws rest : List Char),
      jsonFuel v ≤ fuel → (∀ c ∈ ws, isJsonWs c = true) →
      (∀ n : Int, v = Json.num n →
        (match rest with | c :: _ => c.isDigit = false | [] => True)) →
      parseValue fuel (ws ++ printValue ind v ++ rest) = some (v, rest)) ∧
    (∀ (x : Json) (xs : List Json) (ind : Nat) (ws pad rest : List Char),
      elemsFuel (x :: xs) ≤ fuel →
      (∀ c ∈ ws, isJsonWs c = true) → (∀ c ∈ pad, isJsonWs c = true) →
      parseElems fuel (ws ++ printElems ind (x :: xs) ++ '\n' :: (pad ++ ']' :: rest)) =
        some (x :: xs, rest)) ∧
    (∀ (k : List Char) (v : Json) (fs : List (List Char × Json)) (ind : Nat)
      (ws pad rest : List Char),
      fieldsFuel ((k, v) :: fs) ≤ fuel →
      (∀ c ∈ ws, isJsonWs c = true) → (∀ c ∈ pad, isJsonWs c = true) →
      parseFields fuel (ws ++ printFields ind ((k, v) :: fs) ++ '\n' :: (pad ++ '}' :: rest)) =
        some ((k, v) :: fs, rest)) := by
  intro fuel
  induction fuel with
  | zero =>
    refine ⟨?_, ?_, ?_⟩
    · intro v ind ws rest hfuel _ _
      have := jsonFuel_pos v
      omega
    · intro x xs ind ws pad rest hfuel _ _
      have := elemsFuel_pos (x :: xs)
      omega
    · intro k v fs ind ws pad rest hfuel _ _
      have := fieldsFuel_pos ((k, v) :: fs)
      omega
  | succ f ih =>
    obtain ⟨ihv, ihe, ihf⟩ := ih
    refine ⟨?_, ?_, ?_⟩
    · -- values
      intro v ind ws rest hfuel hws hguard
      cases v with
      | null =>
        simp only [printValue, List.cons_append, List.nil_append, List.append_assoc]
        simp only [parseValue]
        rw [skipWs_append_ws hws, skipWs_cons_not _ (by decide)]
        rfl
      | bool b =>
        cases b with
        | true =>
          simp only [printValue, List.cons_append, List.nil_append, List.append_assoc]
          simp only [parseValue]
          rw [skipWs_append_ws hws, skipWs_cons_not _ (by decide)]
          rfl
        | false =>
          simp only [printValue, List.cons_append, List.nil_append, List.append_assoc]
          simp only [parseValue]
          rw [skipWs_append_ws hws, skipWs_cons_not _ (by decide)]
          rfl
      | num n =>
        have hg := hguard n rfl
        by_cases hneg : n < 0
        · have hic : printValue ind (Json.num n) = '-' :: natToDigits n.natAbs := by
            simp only [printValue]
            unfold intChars
            rw [if_pos hneg]
          rw [hic]
          simp only [List.cons_append, List.nil_append, List.append_assoc]
          simp only [parseValue]
          rw [skipWs_append_ws hws, skipWs_cons_not _ (by decide)]
          dsimp only
          rw [if_neg (by decide), if_neg (by decide), if_neg (by decide), if_neg (by decide),
            if_neg (by decide), if_neg (by decide), if_pos (by decide)]
          rw [parseNatNum_digits _ _ hg]
          simp only [Option.map_some']
          rw [show (-(n.natAbs : Int)) = n by omega]
        · have hic : printValue ind (Json.num n) = natToDigits n.natAbs := by
            simp only [printValue]
            unfold intChars
            rw [if_neg hneg]
          obtain ⟨c, t, hct, hcd⟩ := natToDigits_head_digit n.natAbs
          obtain ⟨h48, h57⟩ := isDigit_toNat hcd
          rw [hic, hct]
          simp only [List.cons_append, List.nil_append, List.append_assoc]
          simp only [parseValue]
          rw [skipWs_append_ws hws, skipWs_cons_not _ (by simp [isJsonWs]; omega)]
          dsimp only
          rw [if_neg (by simp; omega), if_neg (by simp; omega), if_neg (by simp; omega),
            if_neg (by simp; omega), if_neg (by simp; omega), if_neg (by simp; omega),
            if_neg (by simp; omega), if_pos hcd]
          rw [show c :: (t ++ rest) = natToDigits n.natAbs ++ rest by rw [hct]; rfl]
          rw [parseNatNum_digits _ _ hg]
          simp only [Option.map_some']
          rw [show ((n.natAbs : Int)) = n by omega]
      | str s =>
        simp only [printValue, printStr, List.cons_append, List.nil_append, List.append_assoc]
        simp only [parseValue]
        rw [skipWs_append_ws hws, skipWs_cons_not _ (by decide)]
        dsimp only
        rw [if_neg (by decide), if_neg (by decide), if_neg (by decide), if_pos (by decide)]
        rw [parseStringBody_escape]
        rfl
      | arr l =>
        cases l with
        | nil =>
          simp only [printValue, List.cons_append, List.nil_append, List.append_assoc]
          simp only [parseValue]
          rw [skipWs_append_ws hws, skipWs_cons_not _ (by decide)]
          rfl
        | cons x xs =>
          have hfe : elemsFuel (x :: xs) ≤ f := by
            simp only [jsonFuel] at hfuel
            omega
          simp only [printValue, List.cons_append, List.nil_append, List.append_assoc]
          simp only [parseValue]
          rw [skipWs_append_ws hws, skipWs_cons_not _ (by decide)]
          dsimp only
          rw [if_neg (by decide), if_neg (by decide), if_neg (by decide), if_neg (by decide),
            if_pos (by decide)]
          obtain ⟨c0, T, hsk, h93, _, _⟩ :=
            skipWs_elems_head (ind + 1) x xs ('\n' :: (indentChars ind ++ ']' :: rest))
          rw [hsk]
          dsimp only
          rw [if_neg (by simp [h93])]
          have he := ihe x xs (ind + 1) ['\n'] (indentChars ind) rest hfe
            (by intro c hc; simp at hc; subst hc; decide) (indentChars_ws ind)
          simp only [List.cons_append, List.nil_append, List.append_assoc] at he
          rw [he]
          rfl
      | obj l =>
        cases l with
        | nil =>
          simp only [printValue, List.cons_append, List.nil_append, List.append_assoc]
          simp only [parseValue]
          rw [skipWs_append_ws hws, skipWs_cons_not _ (by decide)]
          rfl
        | cons f0 fs =>
          obtain ⟨k, v⟩ := f0
          have hff : fieldsFuel ((k, v) :: fs) ≤ f := by
            simp only [jsonFuel] at hfuel
            omega
          simp only [printValue, List.cons_append, List.nil_append, List.append_assoc]
          simp only [parseValue]
          rw [skipWs_append_ws hws, skipWs_cons_not _ (by decide)]
          dsimp only
          rw [if_neg (by decide), if_neg (by decide), if_neg (by decide), if_neg (by decide),
            if_neg (by decide), if_pos (by decide)]
          obtain ⟨T, hsk⟩ :=
            skipWs_fields_head (ind + 1) k v fs ('\n' :: (indentChars ind ++ '}' :: rest))
          rw [hsk]
          dsimp only
          rw [if_neg (by decide)]
          have hf2 := ihf k v fs (ind + 1) ['\n'] (indentChars ind) rest hff
            (by intro c hc; simp at hc; subst hc; decide) (indentChars_ws ind)
          simp only [List.cons_append, List.nil_append, List.append_assoc] at hf2
          rw [hf2]
          rfl
    · -- element lists
      intro x xs ind ws pad rest hfuel hws hpad
      have hwsind : ∀ c ∈ ws ++ indentChars ind, isJsonWs c = true := by
        intro c hc
        rcases List.mem_append.mp hc with h | h
        · exact hws c h
        · exact indentChars_ws ind c h
      cases xs with
      | nil =>
        have hfx : jsonFuel x ≤ f := by
          simp only [elemsFuel] at hfuel
          omega
        simp only [printElems, parseElems]
        have hv := ihv x ind (ws ++ indentChars ind) ('\n' :: (pad ++ ']' :: rest)) hfx hwsind
          (by intro n _; exact rfl)
        simp only [List.cons_append, List.nil_append, List.append_assoc] at hv ⊢
        rw [hv]
        dsimp only
        rw [show ('\n' :: (pad ++ ']' :: rest)) = ('\n' :: pad) ++ (']' :: rest) by simp]
        rw [skipWs_append_ws (by
          intro c hc
          rcases List.mem_cons.mp hc with h | h
          · subst h; decide
          · exact hpad c h)]
        rw [skipWs_cons_not _ (by decide)]
        dsimp only
        rw [if_neg (by decide), if_pos (by decide)]
      | cons y ys =>
        have hfx : jsonFuel x ≤ f ∧ elemsFuel (y :: ys) ≤ f := by
          simp only [elemsFuel] at hfuel
          omega
        simp only [printElems, parseElems]
        have hv := ihv x ind (ws ++ indentChars ind)
          (',' :: '\n' :: (printElems ind (y :: ys) ++ '\n' :: (pad ++ ']' :: rest)))
          hfx.1 hwsind (by intro n _; exact rfl)
        simp only [List.cons_append, List.nil_append, List.append_assoc] at hv ⊢
        rw [hv]
        dsimp only
        rw [skipWs_cons_not _ (by decide)]
        dsimp only
        rw [if_pos (by decide)]
        have he := ihe y ys ind ['\n'] pad rest hfx.2
          (by intro c hc; simp at hc; subst hc; decide) hpad
        simp only [List.cons_append, List.nil_append, List.append_assoc] at he
        rw [he]
        rfl
    · -- field lists
      intro k v fs ind ws pad rest hfuel hws hpad
      have hwsind : ∀ c ∈ ws ++ indentChars ind, isJsonWs c = true := by
        intro c hc
        rcases List.mem_append.mp hc with h | h
        · exact hws c h
        · exact indentChars_ws ind c h
      cases fs with
      | nil =>
        have hfv : jsonFuel v ≤ f := by
          simp only [fieldsFuel] at hfuel
          omega
        simp only [printFields, printStr, parseFields]
        simp only [List.cons_append, List.nil_append, List.append_assoc]
        rw [skipWs_append_ws hws, skipWs_append_ws (indentChars_ws ind),
          skipWs_cons_not _ (by decide)]
        dsimp only
        rw [if_pos (by decide)]
        rw [parseStringBody_escape]
        dsimp only
        rw [skipWs_cons_not _ (by decide)]
        dsimp only
        rw [if_pos (by decide)]
        have hv := ihv v ind [' '] ('\n' :: (pad ++ '}' :: rest)) hfv
          (by intro c hc; simp at hc; subst hc; decide) (by intro n _; exact rfl)
        simp only [List.cons_append, List.nil_append, List.append_assoc] at hv
        rw [hv]
        dsimp only
        rw [show ('\n' :: (pad ++ '}' :: rest)) = ('\n' :: pad) ++ ('}' :: rest) by simp]
        rw [skipWs_append_ws (by
          intro c hc
          rcases List.mem_cons.mp hc with h | h
          · subst h; decide
          · exact hpad c h)]
        rw [skipWs_cons_not _ (by decide)]
        dsimp only
        rw [if_neg (by decide), if_pos (by decide)]
      | cons f2 fs2 =>
        obtain ⟨k2, v2⟩ := f2
        have hfv : jsonFuel v ≤ f ∧ fieldsFuel ((k2, v2) :: fs2) ≤ f := by
          simp only [fieldsFuel] at hfuel
          omega
        simp only [printFields, printStr, parseFields]
        simp only [List.cons_append, List.nil_append, List.append_assoc]
        rw [skipWs_append_ws hws, skipWs_append_ws (indentChars_ws ind),
          skipWs_cons_not _ (by decide)]
        dsimp only
        rw [if_pos (by decide)]
        rw [parseStringBody_escape]
        dsimp only
        rw [skipWs_cons_not _ (by decide)]
        dsimp only
        rw [if_pos (by decide)]
        have hv := ihv v ind [' ']
          (',' :: '\n' :: (printFields ind ((k2, v2) :: fs2) ++ '\n' :: (pad ++ '}' :: rest)))
          hfv.1 (by intro c hc; simp at hc; subst hc; decide) (by intro n _; exact rfl)
        simp only [List.cons_append, List.nil_append, List.append_assoc] at hv
        rw [hv]
        dsimp only
        rw [skipWs_cons_not _ (by decide)]
        dsimp only
        rw [if_pos (by decide)]
        have hf2 := ihf k2 v2 fs2 ind ['\n'] pad rest hfv.2
          (by intro c hc; simp at hc; subst hc; decide) hpad
        simp only [List.cons_append, List.nil_append, List.append_assoc] at hf2
        rw [hf2]
        rfl

theorem fuel_le_print : ∀ n : Nat,
    (∀ v : Json, sizeOf v ≤ n → ∀ ind : Nat,
      jsonFuel v ≤ (printValue ind v).length + 1) ∧
    (∀ (x : Json) (xs : List Json), sizeOf x + sizeOf xs ≤ n → ∀ ind : Nat, 1 ≤ ind →
      elemsFuel (x :: xs) ≤ (printElems ind (x :: xs)).length + 1) ∧
    (∀ (k : List Char) (v : Json) (fs : List (List Char × Json)),
      sizeOf v + sizeOf fs ≤ n → ∀ ind : Nat, 1 ≤ ind →
      fieldsFuel ((k, v) :: fs) ≤ (printFields ind ((k, v) :: fs)).length + 1) := by
  intro n
  induction n using Nat.strong_induction_on with
  | _ n ih =>
    refine ⟨?_, ?_, ?_⟩
    · intro v hv ind
      cases v with
      | null => simp [jsonFuel, printValue]
      | bool b => cases b <;> simp [jsonFuel, printValue]
      | num m => simp [jsonFuel, printValue]
      | str s => simp [jsonFuel, printValue]
      | arr l =>
        cases l with
        | nil => simp [jsonFuel, printValue]
        | cons x xs =>
          have hsz : sizeOf x + sizeOf xs < n := by
            simp only [Json.arr.sizeOf_spec, List.cons.sizeOf_spec] at hv
            omega
          have hb := (ih (sizeOf x + sizeOf xs) hsz).2.1 x xs (le_refl _) (ind + 1) (by omega)
          simp only [jsonFuel, printValue, List.length_cons, List.length_append]
          omega
      | obj l =>
        cases l with
        | nil => simp [jsonFuel, printValue]
        | cons f0 fs =>
          obtain ⟨k, v⟩ := f0
          have hsz : sizeOf v + sizeOf fs < n := by
            simp only [Json.obj.sizeOf_spec, List.cons.sizeOf_spec, Prod.mk.sizeOf_spec] at hv
            omega
          have hb := (ih (sizeOf v + sizeOf fs) hsz).2.2 k v fs (le_refl _) (ind + 1) (by omega)
          simp only [jsonFuel, printValue, List.length_cons, List.length_append]
          omega
    · intro x xs hsz ind hind
      cases xs with
      | nil =>
        have hx : sizeOf x < n := by
          simp only [List.nil.sizeOf_spec] at hsz
          omega
        have ha := (ih (sizeOf x) hx).1 x (le_refl _) ind
        simp only [elemsFuel, printElems, List.length_append, indentChars,
          List.length_replicate]
        omega
      | cons y ys =>
        have hx : sizeOf x < n := by
          simp only [List.cons.sizeOf_spec] at hsz
          omega
        have hy : sizeOf y + sizeOf ys < n := by
          simp only [List.cons.sizeOf_spec] at hsz
          omega
        have ha := (ih (sizeOf x) hx).1 x (le_refl _) ind
        have hb := (ih (sizeOf y + sizeOf ys) hy).2.1 y ys (le_refl _) ind hind
        simp only [elemsFuel, printElems, List.length_append, List.length_cons, indentChars,
          List.length_replicate]
        omega
    · intro k v fs hsz ind hind
      cases fs with
      | nil =>
        have hx : sizeOf v < n := by
          simp only [List.nil.sizeOf_spec] at hsz
          omega
        have ha := (ih (sizeOf v) hx).1 v (le_refl _) ind
        simp only [fieldsFuel, printFields, List.length_append, List.length_cons, indentChars,
          List.length_replicate]
        omega
      | cons f2 fs2 =>
        obtain ⟨k2, v2⟩ := f2
        have hx : sizeOf v < n := by
          simp only [List.cons.sizeOf_spec, Prod.mk.sizeOf_spec] at hsz
          omega
        have hy : sizeOf v2 + sizeOf fs2 < n := by
          simp only [List.cons.sizeOf_spec, Prod.mk.sizeOf_spec] at hsz
          omega
        have ha := (ih (sizeOf v) hx).1 v (le_refl _) ind
        have hb := (ih (sizeOf v2 + sizeOf fs2) hy).2.2 k2 v2 fs2 (le_refl _) ind hind
        simp only [fieldsFuel, printFields, List.length_append, List.length_cons, indentChars,
          List.length_replicate]
        omega

/-- `JSON.parse` recovers exactly what `JSON.stringify(·, null, 2) + "\n"`
wrote, for every JSON value. -/
theorem jsonParse_print (v : Json) : jsonParse (writeJsonTxt v) = some v := by
  unfold jsonParse writeJsonTxt
  have hlen : jsonFuel v ≤ (printValue 0 v ++ ['\n']).length + 1 := by
    have ha := (fuel_le_print (sizeOf v)).1 v (le_refl _) 0
    rw [List.length_append]
    simp only [List.length_cons, List.length_nil]
    omega
  have h := (parse_print_roundtrip ((printValue 0 v ++ ['\n']).length + 1)).1 v 0 [] ['\n']
    hlen (by intro c hc; simp at hc) (by intro m _; exact rfl)
  simp only [List.nil_append] at h
  rw [h]
  rfl

/-- C5: round trip — for every sequence of records, serializing it to the
primary store with `writeJson` (pretty-printed, newline-terminated) and then
re-reading and parsing the store with `readJson` yields a sequence
structurally equal to the in-memory sequence immediately prior to the write,
order preserved. -/
theorem c5_store_roundtrip (records : List Record) :
    readJsonF (some (writeJsonTxt (Json.arr (records.map encodeRecord)))) =
      Except.ok (Json.arr (records.map encodeRecord)) := by
  simp only [readJsonF, jsonParse_print]
